import Mathlib

/-!
Verification development for the cat-prod-normalize conversation-record
normalization pipeline.  The Python sources under src/lambda are shallowly
embedded: Python runtime values become the inductive type PyVal, string
processing is modelled over List Char, and functions that can hit the
CPython recursion limit take an explicit fuel argument (fuel exhaustion
corresponds to RecursionError).
-/

set_option maxRecDepth 8192

/-- Model of the Python runtime values that flow through the pipeline.
Floats are represented in decimal fixed point as m / 10^e (the pipeline
only ever creates floats by parsing decimal numerals).  Dict keys are
strings, which covers every dict the pipeline builds or parses. -/
inductive PyVal where
  | str (s : String)
  | int (n : Int)
  | float (m : Int) (e : Nat)
  | bool (b : Bool)
  | none
  | list (xs : List PyVal)
  | dict (kvs : List (String × PyVal))
deriving Repr

/-- Characters treated as whitespace by Python's strip() and by the regex
class backslash-s (ASCII fragment). -/
def isPySpace (c : Char) : Bool :=
  c = ' ' || c = '\t' || c = '\n' || c = '\r' || c = '\x0b' || c = '\x0c'

/-- ASCII lowering, the fragment of Python str.lower() the pipeline relies
on (role tags, type tags and sentinels are ASCII). -/
def pyLowerC (c : Char) : Char :=
  if 'A' ≤ c ∧ c ≤ 'Z' then Char.ofNat (c.toNat + 32) else c

def pyLowerL (l : List Char) : List Char := l.map pyLowerC

/-- Drop elements from the right end while the predicate holds. -/
def dropWhileEnd (p : Char → Bool) (l : List Char) : List Char :=
  (l.reverse.dropWhile p).reverse

/-- Python str.strip() with no argument: remove whitespace on both ends. -/
def pyStripL (l : List Char) : List Char :=
  dropWhileEnd isPySpace (l.dropWhile isPySpace)

def pyLower (s : String) : String := ⟨pyLowerL s.data⟩

def pyStrip (s : String) : String := ⟨pyStripL s.data⟩

/-- Boolean test that pat is an initial segment of l. -/
def esPrefijoB : List Char → List Char → Bool
  | [], _ => true
  | _ :: _, [] => false
  | a :: as, b :: bs => a == b && esPrefijoB as bs

/-- Boolean substring test, Python's operator in on strings. -/
def esSubcadenaB (pat : List Char) : List Char → Bool
  | [] => pat.isEmpty
  | l@(_ :: rest) => esPrefijoB pat l || esSubcadenaB pat rest

/-- Python operator in on strings, lifted to String. -/
def pyIn (pat s : String) : Bool := esSubcadenaB pat.data s.data

/-- Python str.join applied to a list of strings. -/
def pyJoin (sep : String) : List String → String
  | [] => ""
  | x :: xs => List.foldl (fun acc y => acc ++ sep ++ y) x xs

/-- Python str.count for a non-empty pattern: non-overlapping occurrences,
scanning left to right.  The skip counter carries the characters still to
be consumed by the most recent match. -/
def countSubGo (pat : List Char) : List Char → Nat → Nat
  | [], _ => 0
  | _ :: rest, skip + 1 => countSubGo pat rest skip
  | c :: rest, 0 =>
    if esPrefijoB pat (c :: rest) then 1 + countSubGo pat rest (pat.length - 1)
    else countSubGo pat rest 0

/-- Python str.count (the empty pattern is counted len+1 times, as in
Python). -/
def countSub (pat l : List Char) : Nat :=
  if pat.isEmpty then l.length + 1 else countSubGo pat l 0

/-- Python str.split with a non-empty separator string; every occurrence
splits, empty parts are kept. -/
def splitOnGo (sep : List Char) : List Char → Nat → List Char → List (List Char)
  | [], _, cur => [cur.reverse]
  | _ :: rest, skip + 1, cur => splitOnGo sep rest skip cur
  | c :: rest, 0, cur =>
    if esPrefijoB sep (c :: rest) then
      cur.reverse :: splitOnGo sep rest (sep.length - 1) []
    else splitOnGo sep rest 0 (c :: cur)

def pySplitL (sep l : List Char) : List (List Char) :=
  if sep.isEmpty then [l] else splitOnGo sep l 0 []

def pySplit (sep s : String) : List String :=
  (pySplitL sep.data s.data).map (fun l => ⟨l⟩)

/-- Python str.replace with a non-empty pattern: non-overlapping
replacement scanning left to right. -/
def replaceGo (pat rep : List Char) : List Char → Nat → List Char
  | [], _ => []
  | _ :: rest, skip + 1 => replaceGo pat rep rest skip
  | c :: rest, 0 =>
    if esPrefijoB pat (c :: rest) then rep ++ replaceGo pat rep rest (pat.length - 1)
    else c :: replaceGo pat rep rest 0

def pyReplaceL (pat rep l : List Char) : List Char :=
  if pat.isEmpty then l else replaceGo pat rep l 0

def pyReplace (pat rep s : String) : String := ⟨pyReplaceL pat.data rep.data s.data⟩

/-- Digit-group scanner used by the numeric literal parsers: decimal
digits with optional single underscores between digits, accumulating the
value. -/
def parseDigitsGo (acc : Nat) : List Char → Option (Nat × List Char)
  | c :: rest =>
    if c.isDigit then parseDigitsGo (acc * 10 + (c.toNat - '0'.toNat)) rest
    else if c = '_' then
      match rest with
      | d :: rest2 =>
        if d.isDigit then parseDigitsGo (acc * 10 + (d.toNat - '0'.toNat)) rest2
        else Option.none
      | [] => Option.none
    else Option.some (acc, c :: rest)
  | [] => Option.some (acc, [])

/-- Digit group with at least one digit, as in Python numeric literals. -/
def parseDigitsU : List Char → Option (Nat × List Char)
  | c :: rest =>
    if c.isDigit then parseDigitsGo (c.toNat - '0'.toNat) rest
    else Option.none
  | [] => Option.none

def pyIntCore (l : List Char) : Option Int :=
  match parseDigitsU l with
  | Option.some (n, []) => Option.some (n : Int)
  | _ => Option.none

/-- Python int(string): strip, optional sign, decimal digits. -/
def pyIntParse (s : String) : Option Int :=
  match pyStripL s.data with
  | '+' :: rest => pyIntCore rest
  | '-' :: rest => (pyIntCore rest).map (fun n => -n)
  | rest => pyIntCore rest

/-- Normalize a decimal fixed-point pair by stripping trailing zero digits
of the mantissa into the exponent. -/
def mkFloatGo (m : Int) : Nat → Int × Nat
  | 0 => (m, 0)
  | e + 1 => if m % 10 = 0 then mkFloatGo (m / 10) e else (m, e + 1)

/-- Combine a scanned mantissa (value m with e decimal places) with a
decimal exponent and normalize. -/
def mkFloatPair (m : Int) (e : Nat) (exp : Int) : Int × Nat :=
  if exp ≥ 0 then
    let shift := exp.toNat
    if e ≤ shift then mkFloatGo (m * (10 : Int) ^ (shift - e)) 0
    else mkFloatGo m (e - shift)
  else mkFloatGo m (e + (-exp).toNat)

/-- Optional exponent suffix of a Python float literal. -/
def pyFloatExp (m : Nat) (e : Nat) : List Char → Option (Int × Nat)
  | [] => Option.some (mkFloatPair (m : Int) e 0)
  | c :: rest =>
    if c = 'e' ∨ c = 'E' then
      match rest with
      | '+' :: rest2 =>
        match parseDigitsU rest2 with
        | Option.some (k, []) => Option.some (mkFloatPair (m : Int) e (k : Int))
        | _ => Option.none
      | '-' :: rest2 =>
        match parseDigitsU rest2 with
        | Option.some (k, []) => Option.some (mkFloatPair (m : Int) e (-(k : Int)))
        | _ => Option.none
      | _ =>
        match parseDigitsU rest with
        | Option.some (k, []) => Option.some (mkFloatPair (m : Int) e (k : Int))
        | _ => Option.none
    else Option.none

def pyFloatCore (l : List Char) : Option (Int × Nat) :=
  match l with
  | '.' :: rest =>
    match parseDigitsU rest with
    | Option.some (frac, rest2) => pyFloatExp frac (rest.length - rest2.length) rest2
    | _ => Option.none
  | _ =>
    match parseDigitsU l with
    | Option.some (ip, rest) =>
      match rest with
      | '.' :: rest2 =>
        match parseDigitsU rest2 with
        | Option.some (frac, rest3) =>
          pyFloatExp (ip * 10 ^ (rest2.length - rest3.length) + frac)
            (rest2.length - rest3.length) rest3
        | _ => pyFloatExp ip 0 rest2
      | _ => pyFloatExp ip 0 rest
    | _ => Option.none

/-- Python float(string) restricted to the decimal forms the pipeline can
meet (sign, digit groups, one dot, optional exponent).  Returns the
normalized fixed-point representation. -/
def pyFloatParse (s : String) : Option (Int × Nat) :=
  match pyStripL s.data with
  | '+' :: rest => pyFloatCore rest
  | '-' :: rest => (pyFloatCore rest).map (fun p => (-p.1, p.2))
  | rest => pyFloatCore rest

/-- Lowercase hexadecimal digit. -/
def hexDigit (n : Nat) : Char :=
  if n < 10 then Char.ofNat ('0'.toNat + n) else Char.ofNat ('a'.toNat + (n - 10))

/-- Escape of one character inside a Python repr string literal. -/
def reprEscChar (quote c : Char) : String :=
  if c = '\\' then "\\\\"
  else if c = quote then "\\" ++ quote.toString
  else if c = '\n' then "\\n"
  else if c = '\r' then "\\r"
  else if c = '\t' then "\\t"
  else if c.toNat < 32 then
    "\\x" ++ (hexDigit (c.toNat / 16)).toString ++ (hexDigit (c.toNat % 16)).toString
  else c.toString

/-- Python repr of a string: single quotes unless the text holds a single
quote and no double quote. -/
def pyReprStr (s : String) : String :=
  let apo : Char := '\x27'
  let quote := if esSubcadenaB [apo] s.data && !(esSubcadenaB ['"'] s.data) then '"' else apo
  quote.toString ++ String.join (s.data.map (reprEscChar quote)) ++ quote.toString

/-- Python repr of a decimal fixed-point float. -/
def pyFloatReprCore (e : Nat) (n : Nat) : String :=
  if e = 0 then toString n ++ ".0"
  else
    let ip := n / 10 ^ e
    let fr := n % 10 ^ e
    let frs := toString fr
    toString ip ++ "." ++ String.mk (List.replicate (e - frs.length) '0') ++ frs

def pyFloatRepr (m : Int) (e : Nat) : String :=
  if m < 0 then "-" ++ pyFloatReprCore e m.natAbs else pyFloatReprCore e m.toNat

/-- Python repr of a value, with fuel standing in for the interpreter
recursion limit. -/
def pyReprF : Nat → PyVal → String
  | 0, _ => ""
  | f + 1, v =>
    match v with
    | .str s => pyReprStr s
    | .int n => toString n
    | .float m e => pyFloatRepr m e
    | .bool b => if b then "True" else "False"
    | .none => "None"
    | .list xs => "[" ++ pyJoin ", " (xs.map (pyReprF f)) ++ "]"
    | .dict kvs =>
      "\x7b" ++ pyJoin ", " (kvs.map (fun kv => pyReprStr kv.1 ++ ": " ++ pyReprF f kv.2)) ++ "\x7d"

/-- Python str() of a value. -/
def pyStr (v : PyVal) : String :=
  match v with
  | .str s => s
  | w => pyReprF 1000 w

/-- Python truthiness of a value. -/
def pyTruthy : PyVal → Bool
  | .str s => !(s == "")
  | .int n => !(n == 0)
  | .float m _ => !(m == 0)
  | .bool b => b
  | .none => false
  | .list xs => !xs.isEmpty
  | .dict kvs => !kvs.isEmpty

/-- Update of a Python dict: an existing key keeps its position and gets
the new value, a new key is appended. -/
def pyDictUpsert : List (String × PyVal) → String → PyVal → List (String × PyVal)
  | [], k, v => [(k, v)]
  | (k', v') :: rest, k, v =>
    if k' == k then (k', v) :: rest else (k', v') :: pyDictUpsert rest k v

/-- Python iteration over a value: characters of a string, elements of a
list, keys of a dict; anything else raises TypeError. -/
def pyIterate : PyVal → Except String (List PyVal)
  | .str s => .ok (s.data.map (fun c => PyVal.str c.toString))
  | .list xs => .ok xs
  | .dict kvs => .ok (kvs.map (fun kv => PyVal.str kv.1))
  | _ => .error "TypeError"

/-- Branch of deserializar_valor_dynamodb for a recognized N tag: the
textual number becomes float when it shows a decimal point, else int; a
ValueError from the conversion falls back to the text itself, while the
conversion of a non-numeric non-string raises. -/
def deserNum : PyVal → Except String PyVal
  | .str s =>
    if esSubcadenaB ['.'] s.data then
      match pyFloatParse s with
      | Option.some (m, e) => .ok (PyVal.float m e)
      | Option.none => .ok (PyVal.str s)
    else
      match pyIntParse s with
      | Option.some n => .ok (PyVal.int n)
      | Option.none => .ok (PyVal.str s)
  | .int n => .ok (PyVal.int n)
  | .float m e => .ok (PyVal.float m e)
  | .bool b => .ok (PyVal.int (if b then 1 else 0))
  | _ => .error "TypeError"

/-- Element conversion of the NS branch: each member must be a string and
parse as a number, otherwise the comprehension raises. -/
def deserNSElem : PyVal → Except String PyVal
  | .str s =>
    if esSubcadenaB ['.'] s.data then
      match pyFloatParse s with
      | Option.some (m, e) => .ok (PyVal.float m e)
      | Option.none => .error "ValueError"
    else
      match pyIntParse s with
      | Option.some n => .ok (PyVal.int n)
      | Option.none => .error "ValueError"
  | _ => .error "TypeError"

/-- Recursive deserializer of src/lambda/etl-process1/lambda_function.py
(deserializar_valor_dynamodb): sequences are unwrapped to their first
element (None when empty), a dict is dispatched on its recognized DynamoDB
tag with recursion into L and M, and any other dict is string-coerced.
Fuel models the interpreter recursion limit. -/
def deserValorF : Nat → PyVal → Except String PyVal
  | 0, _ => .error "RecursionError"
  | fuel + 1, v0 =>
    let v : PyVal :=
      match v0 with
      | .list [] => PyVal.none
      | .list (x :: _) => x
      | w => w
    match v with
    | .none => .ok PyVal.none
    | .dict kvs =>
      match kvs.lookup "S" with
      | Option.some sv => .ok sv
      | Option.none =>
      match kvs.lookup "N" with
      | Option.some nv => deserNum nv
      | Option.none =>
      match kvs.lookup "BOOL" with
      | Option.some bv => .ok bv
      | Option.none =>
      match kvs.lookup "NULL" with
      | Option.some _ => .ok PyVal.none
      | Option.none =>
      match kvs.lookup "L" with
      | Option.some lv => do
          let items ← pyIterate lv
          let res ← items.mapM (deserValorF fuel)
          pure (PyVal.list res)
      | Option.none =>
      match kvs.lookup "M" with
      | Option.some mv =>
        match mv with
        | .dict mkvs => do
            let res ← mkvs.mapM (fun kv => do
              let w ← deserValorF fuel kv.2
              pure (kv.1, w))
            pure (PyVal.dict res)
        | _ => .error "AttributeError"
      | Option.none =>
      match kvs.lookup "SS" with
      | Option.some sv => do
          let items ← pyIterate sv
          pure (PyVal.list items)
      | Option.none =>
      match kvs.lookup "NS" with
      | Option.some nv => do
          let items ← pyIterate nv
          let res ← items.mapM deserNSElem
          pure (PyVal.list res)
      | Option.none =>
      match kvs.lookup "BS" with
      | Option.some bv => do
          let items ← pyIterate bv
          pure (PyVal.list items)
      | Option.none => .ok (PyVal.str (pyStr v))
    | w => .ok w

/-- Top-level deserializer with the CPython default recursion budget. -/
def deserializar_valor_dynamodb (v : PyVal) : Except String PyVal :=
  deserValorF 1000 v

/-- Scalar shapes: the values on which re-deserialization is the
identity. -/
def esEscalarB : PyVal → Bool
  | .str _ => true
  | .int _ => true
  | .float _ _ => true
  | .bool _ => true
  | .none => true
  | .list _ => false
  | .dict _ => false

/-- Whitespace accepted by the JSON grammar. -/
def jsonSkipWs (l : List Char) : List Char :=
  l.dropWhile (fun c => c = ' ' || c = '\t' || c = '\n' || c = '\r')

/-- Value of a hexadecimal digit, if any. -/
def hexVal (c : Char) : Option Nat :=
  if '0' ≤ c ∧ c ≤ '9' then Option.some (c.toNat - '0'.toNat)
  else if 'a' ≤ c ∧ c ≤ 'f' then Option.some (c.toNat - 'a'.toNat + 10)
  else if 'A' ≤ c ∧ c ≤ 'F' then Option.some (c.toNat - 'A'.toNat + 10)
  else Option.none

/-- Body of a JSON string after the opening quote: strict mode, escapes
resolved, raw control characters rejected. -/
def jsonStrGo : List Char → Option (List Char × List Char)
  | [] => Option.none
  | '"' :: rest => Option.some ([], rest)
  | '\\' :: e :: rest =>
    if e = 'u' then
      match rest with
      | a :: b :: c :: d :: rest2 =>
        match hexVal a, hexVal b, hexVal c, hexVal d with
        | Option.some ha, Option.some hb, Option.some hc, Option.some hd =>
          (jsonStrGo rest2).map (fun p =>
            (Char.ofNat (((ha * 16 + hb) * 16 + hc) * 16 + hd) :: p.1, p.2))
        | _, _, _, _ => Option.none
      | _ => Option.none
    else
      let ec : Option Char :=
        if e = '"' then Option.some '"'
        else if e = '\\' then Option.some '\\'
        else if e = '/' then Option.some '/'
        else if e = 'b' then Option.some '\x08'
        else if e = 'f' then Option.some '\x0c'
        else if e = 'n' then Option.some '\n'
        else if e = 'r' then Option.some '\r'
        else if e = 't' then Option.some '\t'
        else Option.none
      match ec with
      | Option.some c => (jsonStrGo rest).map (fun p => (c :: p.1, p.2))
      | Option.none => Option.none
  | c :: rest =>
    if c.toNat < 32 then Option.none
    else (jsonStrGo rest).map (fun p => (c :: p.1, p.2))

/-- Strict JSON digit group (no underscores). -/
def jsonDigitsGo (acc : Nat) : List Char → Nat × List Char
  | c :: rest =>
    if c.isDigit then jsonDigitsGo (acc * 10 + (c.toNat - '0'.toNat)) rest
    else (acc, c :: rest)
  | [] => (acc, [])

def jsonDigits : List Char → Option (Nat × List Char)
  | c :: rest => if c.isDigit then Option.some (jsonDigitsGo (c.toNat - '0'.toNat) rest) else Option.none
  | [] => Option.none

/-- JSON number after the optional minus sign: integer part, optional
fraction and exponent; the result is int without them, float with. -/
def jsonNumCore (l : List Char) : Option ((Nat × Nat × Bool) × (Int × Bool) × List Char) :=
  match (match l with
         | '0' :: rest => Option.some (0, rest)
         | _ => (jsonDigits l).map (fun p => (p.1, p.2))) with
  | Option.none => Option.none
  | Option.some (ip, rest) =>
    let fracStep : Option ((Nat × Nat × Bool) × List Char) :=
      match rest with
      | '.' :: rest2 =>
        match jsonDigits rest2 with
        | Option.some (fr, rest3) =>
          Option.some ((ip * 10 ^ (rest2.length - rest3.length) + fr,
                        rest2.length - rest3.length, true), rest3)
        | Option.none => Option.none
      | _ => Option.some ((ip, 0, false), rest)
    match fracStep with
    | Option.none => Option.none
    | Option.some (mant, rest4) =>
      match rest4 with
      | c :: rest5 =>
        if c = 'e' ∨ c = 'E' then
          match rest5 with
          | '+' :: rest6 =>
            match jsonDigits rest6 with
            | Option.some (k, rest7) => Option.some (mant, ((k : Int), true), rest7)
            | Option.none => Option.none
          | '-' :: rest6 =>
            match jsonDigits rest6 with
            | Option.some (k, rest7) => Option.some (mant, (-(k : Int), true), rest7)
            | Option.none => Option.none
          | _ =>
            match jsonDigits rest5 with
            | Option.some (k, rest7) => Option.some (mant, ((k : Int), true), rest7)
            | Option.none => Option.none
        else Option.some (mant, (0, false), c :: rest5)
      | [] => Option.some (mant, (0, false), [])

def jsonNumber (l : List Char) : Option (PyVal × List Char) :=
  match l with
  | '-' :: rest =>
    (jsonNumCore rest).map (fun r =>
      match r with
      | ((m, e, hasFrac), (ex, hasExp), rest2) =>
        if hasFrac ∨ hasExp then
          (match mkFloatPair (-(m : Int)) e ex with
           | (m', e') => (PyVal.float m' e', rest2))
        else (PyVal.int (-(m : Int)), rest2))
  | _ =>
    (jsonNumCore l).map (fun r =>
      match r with
      | ((m, e, hasFrac), (ex, hasExp), rest2) =>
        if hasFrac ∨ hasExp then
          (match mkFloatPair (m : Int) e ex with
           | (m', e') => (PyVal.float m' e', rest2))
        else (PyVal.int (m : Int), rest2))

mutual

/-- Recursive descent over a JSON text, fuel bounded. -/
def jsonVal : Nat → List Char → Option (PyVal × List Char)
  | 0, _ => Option.none
  | f + 1, l0 =>
    match jsonSkipWs l0 with
    | '"' :: rest => (jsonStrGo rest).map (fun p => (PyVal.str (String.mk p.1), p.2))
    | 't' :: 'r' :: 'u' :: 'e' :: rest => Option.some (PyVal.bool true, rest)
    | 'f' :: 'a' :: 'l' :: 's' :: 'e' :: rest => Option.some (PyVal.bool false, rest)
    | 'n' :: 'u' :: 'l' :: 'l' :: rest => Option.some (PyVal.none, rest)
    | '[' :: rest =>
      (match jsonSkipWs rest with
       | ']' :: rest2 => Option.some (PyVal.list [], rest2)
       | l2 =>
         match jsonVal f l2 with
         | Option.some (v, rest2) => jsonArrTail f [v] rest2
         | Option.none => Option.none)
    | '\x7b' :: rest =>
      (match jsonSkipWs rest with
       | '\x7d' :: rest2 => Option.some (PyVal.dict [], rest2)
       | l2 =>
         match jsonPair f l2 with
         | Option.some (k, v, rest2) => jsonObjTail f (pyDictUpsert [] k v) rest2
         | Option.none => Option.none)
    | l => jsonNumber l

/-- Remaining elements of a JSON array after at least one element. -/
def jsonArrTail : Nat → List PyVal → List Char → Option (PyVal × List Char)
  | 0, _, _ => Option.none
  | f + 1, acc, l =>
    match jsonSkipWs l with
    | ']' :: rest => Option.some (PyVal.list acc.reverse, rest)
    | ',' :: rest =>
      (match jsonVal f rest with
       | Option.some (v, rest2) => jsonArrTail f (v :: acc) rest2
       | Option.none => Option.none)
    | _ => Option.none

/-- One key-value pair of a JSON object. -/
def jsonPair : Nat → List Char → Option (String × PyVal × List Char)
  | 0, _ => Option.none
  | f + 1, l =>
    match jsonSkipWs l with
    | '"' :: rest =>
      (match jsonStrGo rest with
       | Option.some (k, rest2) =>
         (match jsonSkipWs rest2 with
          | ':' :: rest3 =>
            (match jsonVal f rest3 with
             | Option.some (v, rest4) => Option.some (String.mk k, v, rest4)
             | Option.none => Option.none)
          | _ => Option.none)
       | Option.none => Option.none)
    | _ => Option.none

/-- Remaining members of a JSON object after at least one member. -/
def jsonObjTail : Nat → List (String × PyVal) → List Char → Option (PyVal × List Char)
  | 0, _, _ => Option.none
  | f + 1, acc, l =>
    match jsonSkipWs l with
    | '\x7d' :: rest => Option.some (PyVal.dict acc, rest)
    | ',' :: rest =>
      (match jsonPair f rest with
       | Option.some (k, v, rest2) => jsonObjTail f (pyDictUpsert acc k v) rest2
       | Option.none => Option.none)
    | _ => Option.none

end

/-- Model of Python json.loads: the whole input must be one JSON value
surrounded by optional whitespace. -/
def jsonLoads (s : String) : Option PyVal :=
  match jsonVal (2 * s.length + 4) s.data with
  | Option.some (v, rest) =>
    if (jsonSkipWs rest).isEmpty then Option.some v else Option.none
  | Option.none => Option.none

/-- Body of a Python string literal after the opening quote: common
escapes resolved, unknown escapes kept verbatim, raw newline rejected. -/
def litStrGo (q : Char) : List Char → Option (List Char × List Char)
  | [] => Option.none
  | '\\' :: e :: rest =>
    if e = 'x' then
      match rest with
      | a :: b :: rest2 =>
        match hexVal a, hexVal b with
        | Option.some ha, Option.some hb =>
          (litStrGo q rest2).map (fun p => (Char.ofNat (ha * 16 + hb) :: p.1, p.2))
        | _, _ => Option.none
      | _ => Option.none
    else if e = 'u' then
      match rest with
      | a :: b :: c :: d :: rest2 =>
        match hexVal a, hexVal b, hexVal c, hexVal d with
        | Option.some ha, Option.some hb, Option.some hc, Option.some hd =>
          (litStrGo q rest2).map (fun p =>
            (Char.ofNat (((ha * 16 + hb) * 16 + hc) * 16 + hd) :: p.1, p.2))
        | _, _, _, _ => Option.none
      | _ => Option.none
    else
      let ec : Option Char :=
        if e = '\\' then Option.some '\\'
        else if e = '\x27' then Option.some '\x27'
        else if e = '"' then Option.some '"'
        else if e = 'n' then Option.some '\n'
        else if e = 'r' then Option.some '\r'
        else if e = 't' then Option.some '\t'
        else if e = 'b' then Option.some '\x08'
        else if e = 'f' then Option.some '\x0c'
        else if e = '0' then Option.some '\x00'
        else Option.none
      match ec with
      | Option.some c => (litStrGo q rest).map (fun p => (c :: p.1, p.2))
      | Option.none => (litStrGo q rest).map (fun p => ('\\' :: e :: p.1, p.2))
  | c :: rest =>
    if c = q then Option.some ([], rest)
    else if c = '\n' then Option.none
    else (litStrGo q rest).map (fun p => (c :: p.1, p.2))

/-- Exponent part of a numeric literal after the letter e. -/
def litNumExpAfterE (m : Nat) (e : Nat) : List Char → Option ((Int × Nat) × List Char)
  | '+' :: rest =>
    (match parseDigitsU rest with
     | Option.some (k, rest2) => Option.some (mkFloatPair (m : Int) e (k : Int), rest2)
     | Option.none => Option.none)
  | '-' :: rest =>
    (match parseDigitsU rest with
     | Option.some (k, rest2) => Option.some (mkFloatPair (m : Int) e (-(k : Int)), rest2)
     | Option.none => Option.none)
  | l =>
    match parseDigitsU l with
    | Option.some (k, rest2) => Option.some (mkFloatPair (m : Int) e (k : Int), rest2)
    | Option.none => Option.none

/-- Optional exponent part of a numeric literal. -/
def litNumExp (m : Nat) (e : Nat) : List Char → Option ((Int × Nat) × List Char)
  | c :: rest =>
    if c = 'e' ∨ c = 'E' then litNumExpAfterE m e rest
    else Option.some (mkFloatPair (m : Int) e 0, c :: rest)
  | [] => Option.some (mkFloatPair (m : Int) e 0, [])

/-- Numeric literal for the literal evaluator: digit groups with
underscores, optional fraction and exponent. -/
def litNumCore (l : List Char) : Option (PyVal × List Char) :=
  match l with
  | '.' :: rest =>
    (match parseDigitsU rest with
     | Option.some (fr, rest2) =>
       match litNumExp fr (rest.length - rest2.length) rest2 with
       | Option.some ((m, e), rest3) => Option.some (PyVal.float m e, rest3)
       | Option.none => Option.none
     | Option.none => Option.none)
  | _ =>
    match parseDigitsU l with
    | Option.some (ip, rest) =>
      (match rest with
       | '.' :: rest2 =>
         (match parseDigitsU rest2 with
          | Option.some (fr, rest3) =>
            (match litNumExp (ip * 10 ^ (rest2.length - rest3.length) + fr)
                     (rest2.length - rest3.length) rest3 with
             | Option.some ((m, e), rest4) => Option.some (PyVal.float m e, rest4)
             | Option.none => Option.none)
          | Option.none =>
            (match litNumExp ip 0 rest2 with
             | Option.some ((m, e), rest4) => Option.some (PyVal.float m e, rest4)
             | Option.none => Option.none))
       | c :: rest2 =>
         if c = 'e' ∨ c = 'E' then
           match litNumExpAfterE ip 0 rest2 with
           | Option.some ((m, e), rest4) => Option.some (PyVal.float m e, rest4)
           | Option.none => Option.none
         else Option.some (PyVal.int (ip : Int), c :: rest2)
       | [] => Option.some (PyVal.int (ip : Int), []))
    | Option.none => Option.none

mutual

/-- Recursive descent over a Python literal (the ast.literal_eval subset
the pipeline can meet: strings, numbers, booleans, None, lists, dicts
with string keys, trailing commas). -/
def litVal : Nat → List Char → Option (PyVal × List Char)
  | 0, _ => Option.none
  | f + 1, l0 =>
    match l0.dropWhile isPySpace with
    | '\x27' :: rest => (litStrGo '\x27' rest).map (fun p => (PyVal.str (String.mk p.1), p.2))
    | '"' :: rest => (litStrGo '"' rest).map (fun p => (PyVal.str (String.mk p.1), p.2))
    | 'T' :: 'r' :: 'u' :: 'e' :: rest => Option.some (PyVal.bool true, rest)
    | 'F' :: 'a' :: 'l' :: 's' :: 'e' :: rest => Option.some (PyVal.bool false, rest)
    | 'N' :: 'o' :: 'n' :: 'e' :: rest => Option.some (PyVal.none, rest)
    | '[' :: rest => litArrMaybeVal f [] rest
    | '\x7b' :: rest => litDictMaybePair f [] rest
    | '+' :: rest => litNumCore (rest.dropWhile isPySpace)
    | '-' :: rest =>
      (match litNumCore (rest.dropWhile isPySpace) with
       | Option.some (PyVal.int n, rest2) => Option.some (PyVal.int (-n), rest2)
       | Option.some (PyVal.float m e, rest2) => Option.some (PyVal.float (-m) e, rest2)
       | _ => Option.none)
    | l => litNumCore l

/-- List continuation expecting a value or the closing bracket. -/
def litArrMaybeVal : Nat → List PyVal → List Char → Option (PyVal × List Char)
  | 0, _, _ => Option.none
  | f + 1, acc, l =>
    match l.dropWhile isPySpace with
    | ']' :: rest => Option.some (PyVal.list acc.reverse, rest)
    | l2 =>
      match litVal f l2 with
      | Option.some (v, rest2) => litArrAfterVal f (v :: acc) rest2
      | Option.none => Option.none

/-- List continuation expecting a comma or the closing bracket. -/
def litArrAfterVal : Nat → List PyVal → List Char → Option (PyVal × List Char)
  | 0, _, _ => Option.none
  | f + 1, acc, l =>
    match l.dropWhile isPySpace with
    | ']' :: rest => Option.some (PyVal.list acc.reverse, rest)
    | ',' :: rest => litArrMaybeVal f acc rest
    | _ => Option.none

/-- Dict continuation expecting a pair or the closing brace. -/
def litDictMaybePair : Nat → List (String × PyVal) → List Char → Option (PyVal × List Char)
  | 0, _, _ => Option.none
  | f + 1, acc, l =>
    match l.dropWhile isPySpace with
    | '\x7d' :: rest => Option.some (PyVal.dict acc, rest)
    | l2 =>
      match litVal f l2 with
      | Option.some (PyVal.str k, rest2) =>
        (match rest2.dropWhile isPySpace with
         | ':' :: rest3 =>
           (match litVal f rest3 with
            | Option.some (v, rest4) => litDictAfterPair f (pyDictUpsert acc k v) rest4
            | Option.none => Option.none)
         | _ => Option.none)
      | _ => Option.none

/-- Dict continuation expecting a comma or the closing brace. -/
def litDictAfterPair : Nat → List (String × PyVal) → List Char → Option (PyVal × List Char)
  | 0, _, _ => Option.none
  | f + 1, acc, l =>
    match l.dropWhile isPySpace with
    | '\x7d' :: rest => Option.some (PyVal.dict acc, rest)
    | ',' :: rest => litDictMaybePair f acc rest
    | _ => Option.none

end

/-- Model of ast.literal_eval on the shapes above; whole-input parse. -/
def literalEval (s : String) : Option PyVal :=
  match litVal (2 * s.length + 4) s.data with
  | Option.some (v, rest) =>
    if (rest.dropWhile isPySpace).isEmpty then Option.some v else Option.none
  | Option.none => Option.none

/-- First character test. -/
def startsC (c : Char) (s : String) : Bool :=
  match s.data with
  | c' :: _ => c' == c
  | [] => false

/-- Last character test. -/
def endsC (c : Char) (s : String) : Bool :=
  match s.data.getLast? with
  | Option.some c' => c' == c
  | Option.none => false

/-- Python type name, used by the debug logging of the reconstructor. -/
def pyTypeName : PyVal → String
  | .str _ => "str"
  | .int _ => "int"
  | .float _ _ => "float"
  | .bool _ => "bool"
  | .none => "NoneType"
  | .list _ => "list"
  | .dict _ => "dict"

/-- Truncation with ellipsis used for utterances (300 characters). -/
def truncar300 (s : String) : String :=
  if s.length > 300 then String.mk (s.data.take 300) ++ "..." else s

/-- Truncation with ellipsis used for the debug dump (200 characters). -/
def truncar200 (s : String) : String :=
  if s.length > 200 then String.mk (s.data.take 200) ++ "..." else s

/-- Newline cleanup and final strip applied to each utterance. -/
def limpiarTextoMensaje (s : String) : String :=
  pyStrip (pyReplace "\n" " " (pyReplace "\n\n" " " s))

/-- Role-tag normalization of formatear_conversacion_especial. -/
def formatearMensaje (fromKey texto : String) : String :=
  if fromKey = "user" ∨ fromKey = "usuario" then "user: " ++ texto
  else if fromKey = "bot" ∨ fromKey = "assistant" ∨ fromKey = "catia" then "bot: " ++ texto
  else fromKey ++ ": " ++ texto

/-- Role extraction of the nested-DynamoDB branch: an S tag must carry a
string (lower and strip would raise on anything else, modelled as
Option.none), a missing S tag string-coerces the whole value. -/
def fromKeyOf : PyVal → Option String
  | .dict fkvs =>
    (match fkvs.lookup "S" with
     | Option.some (PyVal.str s) => Option.some (pyStrip (pyLower s))
     | Option.some _ => Option.none
     | Option.none => Option.some (pyStrip (pyLower (pyStr (PyVal.dict fkvs)))))
  | w => Option.some (pyStrip (pyLower (pyStr w)))

/-- Text extraction of the nested-DynamoDB branch, same failure mode. -/
def textOf : PyVal → Option String
  | .dict tkvs =>
    (match tkvs.lookup "S" with
     | Option.some (PyVal.str s) => Option.some (pyStrip s)
     | Option.some _ => Option.none
     | Option.none => Option.some (pyStrip (pyStr (PyVal.dict tkvs))))
  | w => Option.some (pyStrip (pyStr w))

/-- Loop body of the list case of formatear_conversacion_especial.
Elements that are neither an M-wrapped message nor a plain from/text map
are skipped; a malformed M payload aborts the whole call (AttributeError
reaching the outer handler), modelled as Option.none. -/
def procesarElementos : List PyVal → Option (List String)
  | [] => Option.some []
  | el :: rest =>
    match el with
    | .dict kvs =>
      (match kvs.lookup "M" with
       | Option.some mv =>
         (match mv with
          | .dict mkvs =>
            (match fromKeyOf ((mkvs.lookup "from").getD (PyVal.dict [])) with
             | Option.some fk =>
               (match textOf ((mkvs.lookup "text").getD (PyVal.dict [])) with
                | Option.some tc =>
                  (procesarElementos rest).map
                    (fun msgs => formatearMensaje fk (truncar300 (limpiarTextoMensaje tc)) :: msgs)
                | Option.none => Option.none)
             | Option.none => Option.none)
          | _ => Option.none)
       | Option.none =>
         if (kvs.lookup "from").isSome || (kvs.lookup "text").isSome then
           let fk := pyStrip (pyLower (pyStr ((kvs.lookup "from").getD (PyVal.str ""))))
           let tc := pyStrip (pyStr ((kvs.lookup "text").getD (PyVal.str ""))) 
           (procesarElementos rest).map
             (fun msgs => formatearMensaje fk (truncar300 (limpiarTextoMensaje tc)) :: msgs)
         else procesarElementos rest)
    | _ => procesarElementos rest

/-- Debug lines printed when the 5 percent random draw fires. -/
def lineasDebug (v : PyVal) : List String :=
  ["DEBUG tipo " ++ pyTypeName v, "DEBUG contenido " ++ truncar200 (pyStr v)]

/-- Model of formatear_conversacion_especial from
src/lambda/etl-process1/lambda_function.py, returning the produced string
together with the debug log.  The coin stream stands for the successive
outcomes of the random draw that gates the debug print (one draw per
call, recursive calls consume the tail).  Fuel models the interpreter
recursion limit; a frame at fuel zero behaves as its exception handler
(string coercion of the argument, empty for a falsy argument). -/
def fcLog : Nat → List Bool → PyVal → String × List String
  | 0, _, v => (if pyTruthy v then pyStr v else "", [])
  | fuel + 1, coins, v =>
    if pyTruthy v then
      let dbg : List String := if coins.headD false then lineasDebug v else []
      match v with
      | .list xs =>
        (match procesarElementos xs with
         | Option.some msgs => (pyJoin " | " msgs, dbg)
         | Option.none => (pyStr v, dbg))
      | .str s0 =>
        let t := pyStrip s0
        if t = "" ∨ t = "nan" ∨ t = "None" ∨ t = "null" then ("", dbg)
        else if startsC '[' t && endsC ']' t then
          match jsonLoads t with
          | Option.some pv =>
            (match fcLog fuel coins.tail pv with
             | (r, lg) => (r, dbg ++ lg))
          | Option.none =>
            match literalEval t with
            | Option.some pv =>
              (match fcLog fuel coins.tail pv with
               | (r, lg) => (r, dbg ++ lg))
            | Option.none => (t, dbg)
        else if startsC '\x7b' t && endsC '\x7d' t then
          match jsonLoads t with
          | Option.some pv =>
            (match fcLog fuel coins.tail (PyVal.list [pv]) with
             | (r, lg) => (r, dbg ++ lg))
          | Option.none =>
            match literalEval t with
            | Option.some pv =>
              (match fcLog fuel coins.tail pv with
               | (r, lg) => (r, dbg ++ lg))
            | Option.none => (t, dbg)
        else (t, dbg)
      | .dict kvs =>
        (match kvs.lookup "L" with
         | Option.some lv =>
           (match fcLog fuel coins.tail lv with
            | (r, lg) => (r, dbg ++ lg))
         | Option.none =>
           (match fcLog fuel coins.tail (PyVal.list [PyVal.dict kvs]) with
            | (r, lg) => (r, dbg ++ lg)))
      | w => (pyStr w, dbg)
    else ("", [])

/-- The dialogue reconstructor as the pipeline calls it (the run where no
debug draw fires). -/
def formatear_conversacion_especial (v : PyVal) : String :=
  (fcLog 1000 [] v).1

/-- The dedup-append loop shared by the question extraction code paths: a
candidate enters the list when it is non-empty and not already present. -/
def dedupGo (acc : List String) : List String → List String
  | [] => acc
  | p :: rest =>
    if p ≠ "" ∧ p ∉ acc then dedupGo (acc ++ [p]) rest else dedupGo acc rest

/-- One segment of a pipe-delimited dialogue: stripped, and yielding its
text when it carries the user prefix. -/
def preguntaDeSegmento (seg : String) : Option String :=
  let s' := pyStrip seg
  if s' = "" then Option.none
  else if esPrefijoB "user:".data (pyLowerL s'.data) then
    Option.some (pyStrip (String.mk (s'.data.drop 5)))
  else Option.none

/-- Model of extraer_preguntas_de_dialogo_individual
(src/lambda/etl-process1/lambda_function.py). -/
def extraer_preguntas_de_dialogo_individual (dialogo : String) : List String :=
  dedupGo [] ((pySplit " | " dialogo).filterMap preguntaDeSegmento)

/-- Word characters of the regex class (ASCII plus the Spanish accented
letters the domain vocabulary uses). -/
def isWordChar (c : Char) : Bool :=
  c.isAlphanum || c == '_' ||
    c ∈ ['á', 'é', 'í', 'ó', 'ú', 'ñ', 'ü', 'Á', 'É', 'Í', 'Ó', 'Ú', 'Ñ', 'Ü']

/-- Character class of the inference patterns: word characters or
whitespace. -/
def isWordSpace (c : Char) : Bool := isWordChar c || isPySpace c

/-- After a literal trigger: at least one word-or-space character followed
by a space and one of the alternatives (match existence of the capture
patterns in the inference table). -/
def classThenAlts (alts : List String) : List Char → Nat → Bool
  | l, consumed =>
    if consumed ≥ 1 ∧ alts.any (fun alt => esPrefijoB (' ' :: alt.data) l) then true
    else
      match l with
      | c :: rest => if isWordSpace c then classThenAlts alts rest (consumed + 1) else false
      | [] => false

/-- Search for a literal trigger followed by the capture-and-alternative
tail anywhere in the text. -/
def searchClassThen (lit : String) (alts : List String) : List Char → Bool
  | [] => false
  | l@(_ :: rest) =>
    (esPrefijoB lit.data l && classThenAlts alts (l.drop lit.length) 0)
      || searchClassThen lit alts rest

/-- Any of the literal fragments occurs in the text. -/
def anySub (pats : List String) (l : List Char) : Bool :=
  pats.any (fun p => esSubcadenaB p.data l)

/-- The horario-dot-star-atencion pattern: within one line (the dot does
not cross newlines), an occurrence of atencion in either spelling after
an occurrence of horario. -/
def horarioDespues : List Char → Bool
  | [] => false
  | l@(_ :: rest) =>
    (esPrefijoB "horario".data l &&
      anySub ["atencion", "atención"] (l.drop 7)) || horarioDespues rest

def horarioAtencion (l : List Char) : Bool :=
  (pySplitL ['\n'] l).any horarioDespues

/-- Word-boundary check after a keyword occurrence. -/
def boundaryAfter (kw : String) (l : List Char) : Bool :=
  match l.drop kw.length with
  | [] => true
  | c :: _ => !isWordChar c

/-- Leftmost word-bounded occurrence of one of the domain keywords, with
the alternation preference of the source pattern. -/
def firstKeywordGo (kws : List String) (prev : Option Char) : List Char → Option String
  | [] => Option.none
  | l@(c :: rest) =>
    let boundaryBefore := match prev with
      | Option.none => true
      | Option.some p => !isWordChar p
    match (if boundaryBefore then kws.find? (fun kw => esPrefijoB kw.data l && boundaryAfter kw l)
           else Option.none) with
    | Option.some kw => Option.some kw
    | Option.none => firstKeywordGo kws (Option.some c) rest

def palabrasClave : List String :=
  ["catastro", "certificado", "trámite", "avalúo", "chip", "desenglobe", "englobe"]

/-- Model of extraer_preguntas_implicitas_de_respuesta_bot: the ordered
inference rule table over the lowered bot reply, first match wins, then
the generic keyword fallback. -/
def extraer_preguntas_implicitas_de_respuesta_bot (respuesta : String) : List String :=
  if respuesta = "" ∨ (pyStrip respuesta).length < 10 then []
  else
    let l := (pyLower respuesta).data
    if searchClassThen "el trámite de " ["es", "se realiza", "consiste"] l then
      ["¿Cómo hago el trámite de ?"]
    else if searchClassThen "el certificado " ["es", "incluye", "contiene"] l then
      ["¿Qué es el certificado ?"]
    else if esSubcadenaB "el chip".data l then ["¿Qué es el CHIP?"]
    else if anySub ["cuesta", "valor", "costo"] l then ["¿Cuál es el costo del trámite?"]
    else if anySub ["documento necesario", "documentos necesario", "requisito"] l then
      ["¿Qué documentos necesito?"]
    else if anySub ["tiempo de respuesta", "duración", "días hábiles"] l then
      ["¿Cuánto tiempo tarda el trámite?"]
    else if anySub ["ubicad", "direccion", "dirección", "sede"] l then
      ["¿Dónde queda ubicado catastro?"]
    else if horarioAtencion l then ["¿Cuál es el horario de atención?"]
    else
      match firstKeywordGo palabrasClave Option.none l with
      | Option.some kw => ["Consulta sobre " ++ kw]
      | Option.none => []

/-- Alternative tail of the defensive user-capture pattern: spaces, a
pipe, spaces and a bot prefix, or the end of the text. -/
def reAltMatch (tail : List Char) : Option (List Char) :=
  match tail.dropWhile isPySpace with
  | '|' :: t2 =>
    let t3 := t2.dropWhile isPySpace
    if esPrefijoB "bot:".data (pyLowerL t3) then Option.some (t3.drop 4)
    else if tail.isEmpty then Option.some [] else Option.none
  | _ => if tail.isEmpty then Option.some [] else Option.none

/-- Lazy capture of non-pipe characters, shortest continuation that lets
the alternative tail match. -/
def reCaptureGo (acc : List Char) : List Char → Option (List Char × List Char)
  | [] => Option.none
  | c :: rest =>
    if c = '|' then Option.none
    else
      match reAltMatch rest with
      | Option.some r => Option.some ((c :: acc).reverse, r)
      | Option.none => reCaptureGo (c :: acc) rest

/-- Backtracking over the greedy space run after the user prefix. -/
def reTrySpaces (afterU : List Char) : Nat → Option (List Char × List Char)
  | 0 => reCaptureGo [] afterU
  | s + 1 =>
    match reCaptureGo [] (afterU.drop (s + 1)) with
    | Option.some res => Option.some res
    | Option.none => reTrySpaces afterU s

/-- Match of the user-capture pattern at one position. -/
def reMatchUserAt (l : List Char) : Option (List Char × List Char) :=
  if esPrefijoB "user:".data (pyLowerL l) then
    let afterU := l.drop 5
    reTrySpaces afterU ((afterU.takeWhile isPySpace).length)
  else Option.none

/-- Scan of re.findall for the user-capture pattern: non-overlapping
matches left to right, capture groups collected. -/
def reFindallUserGo : Nat → List Char → List String
  | 0, _ => []
  | _ + 1, [] => []
  | f + 1, l@(_ :: rest) =>
    match reMatchUserAt l with
    | Option.some (cap, r) => String.mk cap :: reFindallUserGo f r
    | Option.none => reFindallUserGo f rest

def reFindallUser (s : String) : List String :=
  reFindallUserGo (s.length + 1) s.data

/-- Candidate user questions before the final dedup pass, in the scan
order of the strategy cascade of extraer_preguntas_usuario. -/
def preguntas_usuario_crudas (s : String) : List String :=
  let t := pyStrip s
  if t = "" ∨ t = "nan" ∨ t = "None" ∨ t = "null" then []
  else if pyIn " || " t then
    (pySplit " || " t).flatMap
      (fun d => extraer_preguntas_de_dialogo_individual (pyStrip d))
  else if pyIn " | " t then extraer_preguntas_de_dialogo_individual t
  else if esPrefijoB "user:".data (pyLowerL t.data) then
    let p := pyStrip (String.mk (t.data.drop 5))
    if p ≠ "" then [p] else []
  else if esPrefijoB "bot:".data (pyLowerL t.data) then
    match extraer_preguntas_implicitas_de_respuesta_bot t with
    | p :: _ => [p]
    | [] => []
  else dedupGo [] ((reFindallUser t).map pyStrip)

/-- Model of extraer_preguntas_usuario
(src/lambda/etl-process1/lambda_function.py): strategy cascade, final
dedup preserving first occurrences, pipe join. -/
def extraer_preguntas_usuario (s : String) : String :=
  let finales := dedupGo [] (preguntas_usuario_crudas s)
  if finales.isEmpty then "" else pyJoin " | " finales

/-- Match of the type-tag regex at one position, for quote style q: the
literal quoted type key and colon, optional whitespace, and a quoted
capture.  Returns the capture and the number of characters consumed. -/
def matchTypeAt (q : Char) : List Char → Option (List Char × Nat)
  | a :: b :: c :: d :: e :: f :: g :: rest =>
    if a = q ∧ b = 't' ∧ c = 'y' ∧ d = 'p' ∧ e = 'e' ∧ f = q ∧ g = ':' then
      let nsp := (rest.takeWhile isPySpace).length
      match rest.drop nsp with
      | h :: rest3 =>
        if h = q then
          let cap := rest3.takeWhile (fun x => x ≠ q)
          match rest3.drop cap.length with
          | _ :: _ => Option.some (cap, 7 + nsp + 1 + cap.length + 1)
          | [] => Option.none
        else Option.none
      | [] => Option.none
    else Option.none
  | _ => Option.none

/-- Scan of re.findall for the type-tag pattern: non-overlapping matches
left to right. -/
def findallTypeGo (q : Char) : List Char → Nat → List String
  | [], _ => []
  | _ :: rest, skip + 1 => findallTypeGo q rest skip
  | l@(_ :: rest), 0 =>
    match matchTypeAt q l with
    | Option.some (cap, k) => String.mk cap :: findallTypeGo q rest (k - 1)
    | Option.none => findallTypeGo q rest 0

def findallType (q : Char) (l : List Char) : List String := findallTypeGo q l 0

/-- Like and dislike flags read from a structurally parsed feedback value,
as the fallback branch of the classifier does. -/
def flagsDeValor : PyVal → Bool × Bool
  | .list items =>
    items.foldl
      (fun fl it =>
        match it with
        | PyVal.dict kvs =>
          (match kvs.lookup "type" with
           | Option.some tv =>
             let tl := pyStrip (pyLower (pyStr tv))
             (fl.1 || tl == "like", fl.2 || tl == "dislike")
           | Option.none => fl)
        | _ => fl)
      (false, false)
  | .dict kvs =>
    (match kvs.lookup "type" with
     | Option.some tv =>
       let tl := pyStrip (pyLower (pyStr tv))
       (tl == "like", tl == "dislike")
     | Option.none => (false, false))
  | _ => (false, false)

/-- Fallback detection of the classifier: only a bracketed blob is parsed,
JSON first, then the literal evaluator. -/
def detectarFallback (t : String) : Bool × Bool :=
  if (startsC '[' t && endsC ']' t) || (startsC '\x7b' t && endsC '\x7d' t) then
    match jsonLoads t with
    | Option.some v => flagsDeValor v
    | Option.none =>
      match literalEval t with
      | Option.some v => flagsDeValor v
      | Option.none => (false, false)
  else (false, false)

/-- Detection pass of clasificar_feedback_simplificado on the stripped
blob: regex scan over both quote styles, structural parse only when the
regex finds no like and no dislike. -/
def detectarFeedback (t : String) : Bool × Bool :=
  let tipos := findallType '\x27' t.data ++ findallType '"' t.data
  let l0 := tipos.any (fun tp => pyStrip (pyLower tp) == "like")
  let d0 := tipos.any (fun tp => pyStrip (pyLower tp) == "dislike")
  if !l0 && !d0 then detectarFallback t else (l0, d0)

/-- Final classification rule. -/
def reglaFinal (l d : Bool) : String :=
  if l && d then "mixed" else if l then "like" else if d then "dislike" else ""

/-- Model of clasificar_feedback_simplificado (identical in
src/lambda/lambda_function.py and src/lambda/etl-process1). -/
def clasificar_feedback_simplificado (s : String) : String :=
  if s = "" then ""
  else
    let t := pyStrip s
    if t = "" ∨ pyLower t ∈ ["nan", "none", "null"] then ""
    else
      match detectarFeedback t with
      | (l, d) => reglaFinal l d

def marcaLike1 : String := "\x27type\x27: \x27like\x27"
def marcaLike2 : String := "\"type\": \"like\""
def marcaDislike1 : String := "\x27type\x27: \x27dislike\x27"
def marcaDislike2 : String := "\"type\": \"dislike\""

/-- Total number of literal like and dislike markers, both quote styles,
in the lowered blob. -/
def contarMarcas (t : String) : Nat :=
  let lw := (pyLower t).data
  countSub marcaLike1.data lw + countSub marcaLike2.data lw +
    countSub marcaDislike1.data lw + countSub marcaDislike2.data lw

/-- Per-segment rescan of contar_feedback_total: one count per segment
holding a like marker, else one per segment holding a dislike marker. -/
def contarSegmentos : List (List Char) → Nat
  | [] => 0
  | parte :: rest =>
    (let pc := pyLowerL (pyStripL parte)
     if esSubcadenaB marcaLike1.data pc ∨ esSubcadenaB marcaLike2.data pc then 1
     else if esSubcadenaB marcaDislike1.data pc ∨ esSubcadenaB marcaDislike2.data pc then 1
     else 0) + contarSegmentos rest

/-- Last step of contar_feedback_total: the length-over-10 heuristic when
the running total is still zero. -/
def contarFinal (t : String) (total : Nat) : Nat :=
  if total = 0 ∧ 10 < t.length then 1 else total

/-- Middle step of contar_feedback_total: the per-segment rescan fires
only when the blob holds a pipe and the marker count is zero. -/
def contarConMarcas (t : String) (total0 : Nat) : Nat :=
  contarFinal t
    (if esSubcadenaB ['|'] t.data ∧ total0 = 0 then
       total0 + contarSegmentos (pySplitL ['|'] t.data)
     else total0)

/-- Body of contar_feedback_total on the stripped blob. -/
def contarCuerpo (t : String) : Nat :=
  if t = "" ∨ pyLower t ∈ ["nan", "none", "null"] then 0
  else contarConMarcas t (contarMarcas t)

/-- Model of contar_feedback_total (identical in both lambda variants):
literal marker count, per-segment rescan, then the length-over-10
heuristic. -/
def contar_feedback_total (s : String) : Nat :=
  if s = "" then 0 else contarCuerpo (pyStrip s)

/-- Values the aggregation joins skip. -/
def valoresVacios : List String := ["", "nan", "None"]

/-- Membership test of the join filter, as a boolean. -/
def esValorVacio (v : String) : Bool := v == "" || v == "nan" || v == "None"

/-- Model of safe_join_non_empty from
src/lambda/etl-process1/lambda_function.py (double-pipe separator). -/
def safe_join_non_empty (vals : List String) : String :=
  let nonEmpty := vals.filter (fun v => !esValorVacio v)
  if nonEmpty.isEmpty then "" else pyJoin " || " nonEmpty

/-- Model of safe_join_non_empty from src/lambda/lambda_function.py
(single-pipe separator). -/
def safe_join_non_empty_v1 (vals : List String) : String :=
  let nonEmpty := vals.filter (fun v => !esValorVacio v)
  if nonEmpty.isEmpty then "" else pyJoin " | " nonEmpty

/-- The required output schema, in order. -/
def COLUMNAS_FINALES_12 : List String :=
  ["usuario_id", "nombre", "gerencia", "ciudad", "fecha_primera_conversacion",
   "numero_conversaciones", "conversacion_completa", "feedback_total",
   "numero_feedback", "pregunta_conversacion", "feedback", "respuesta_feedback"]

/-- Model of validar_y_ordenar_columnas_finales over a column-major frame
(association list of column name to the column of n row values): missing
required columns are appended as empty-string columns, then exactly the
required columns are selected in order. -/
def validar_y_ordenar_columnas_finales (n : Nat) (df : List (String × List String)) :
    List (String × List String) :=
  let faltantes := COLUMNAS_FINALES_12.filter (fun c => (df.lookup c).isNone)
  let df2 := df ++ faltantes.map (fun c => (c, List.replicate n ""))
  COLUMNAS_FINALES_12.map (fun c => (c, (df2.lookup c).getD []))

/-- Calendar date. -/
structure Fecha where
  anio : Nat
  mes : Nat
  dia : Nat
deriving DecidableEq, Repr

/-- Lexicographic date order. -/
def fechaLe (a b : Fecha) : Bool :=
  decide (a.anio < b.anio) ||
    (decide (a.anio = b.anio) &&
      (decide (a.mes < b.mes) || (decide (a.mes = b.mes) && decide (a.dia ≤ b.dia))))

def fechaInicio : Fecha := ⟨2025, 8, 4⟩

def pad2 (n : Nat) : String := if n < 10 then "0" ++ toString n else toString n

def pad4 (n : Nat) : String :=
  if n < 10 then "000" ++ toString n
  else if n < 100 then "00" ++ toString n
  else if n < 1000 then "0" ++ toString n
  else toString n

/-- The strftime format the filter stage uses for kept parseable dates. -/
def strftimeDMY (f : Fecha) : String :=
  pad2 f.dia ++ "/" ++ pad2 f.mes ++ "/" ++ pad4 f.anio

/-- Row shape for the date filter (only the fields the filter touches). -/
structure FilaFecha where
  usuario_id : String
  fecha_primera_conversacion : String
deriving DecidableEq, Repr

/-- Date-filter decision of aplicar_filtros for one row, parameterized by
the permissive timestamp parser (pd.to_datetime with errors coerce) and
the current date: unparseable dates are kept and labelled with the Sin
fecha sentinel, parseable dates are kept exactly within the inclusive
window and reformatted. -/
def filaFiltrada (parse : String → Option Fecha) (hoy : Fecha) (r : FilaFecha) :
    Option FilaFecha :=
  match parse r.fecha_primera_conversacion with
  | Option.none => Option.some { r with fecha_primera_conversacion := "Sin fecha" }
  | Option.some d =>
    if fechaLe fechaInicio d && fechaLe d hoy then
      Option.some { r with fecha_primera_conversacion := strftimeDMY d }
    else Option.none

/-- Date-filter pass of aplicar_filtros over the whole frame. -/
def aplicar_filtro_fechas (parse : String → Option Fecha) (hoy : Fecha)
    (rows : List FilaFecha) : List FilaFecha :=
  rows.filterMap (filaFiltrada parse hoy)

/-- Spark string-to-int cast under the non-ANSI policy: trim, optional
sign, digits, an optional fraction that is truncated, null on anything
else or on 32-bit overflow. -/
def sparkCastIntCore (l : List Char) : Option Int :=
  match jsonDigits l with
  | Option.some (n, rest) =>
    (match rest with
     | [] => Option.some (n : Int)
     | '.' :: rest2 => if rest2.all Char.isDigit then Option.some (n : Int) else Option.none
     | _ => Option.none)
  | Option.none => Option.none

def sparkCastInt (s : String) : Option Int :=
  let v : Option Int :=
    match pyStripL s.data with
    | '+' :: r => sparkCastIntCore r
    | '-' :: r => (sparkCastIntCore r).map (fun n => -n)
    | r => sparkCastIntCore r
  match v with
  | Option.some n =>
    if -(2 ^ 31) ≤ n ∧ n < 2 ^ 31 then Option.some n else Option.none
  | Option.none => Option.none

/-- Integer-column projection of process_data in
src/lambda/etl-process2/glue_job_script.py: null, the empty string and
the literal zero string all map to null, anything else goes through the
permissive cast. -/
def castIntegerColumn (v : Option String) : Option Int :=
  match v with
  | Option.none => Option.none
  | Option.some s => if s = "" ∨ s = "0" then Option.none else sparkCastInt s

/-- Specification-side shape of the dedup-append loop: keep each
non-empty head and drop its later copies.  Compared against dedupGo in
the question-extraction theorems. -/
def dedupFirst : List String → List String
  | [] => []
  | p :: rest =>
    if p = "" then dedupFirst rest
    else p :: dedupFirst (rest.filter (fun q => decide (q ≠ p)))
termination_by l => l.length
decreasing_by
  · simp
  · simp only [List.length_cons]
    exact Nat.lt_succ_of_le (List.length_filter_le _ _)

/-! ## Helper lemmas -/

theorem pyLower_length (s : String) : (pyLower s).length = s.length := by
  show (pyLowerL s.data).length = s.data.length
  simp [pyLowerL]

theorem String.eq_empty_of_len_zero {s : String} (h : s.length = 0) : s = "" := by
  cases s with
  | mk data =>
    simp [String.length] at h
    simp [h]

theorem esPrefijoB_iff (pat : List Char) : ∀ l, esPrefijoB pat l = true ↔ ∃ v, l = pat ++ v := by
  induction pat with
  | nil =>
    intro l
    constructor
    · intro _; exact ⟨l, rfl⟩
    · intro _; rfl
  | cons p ps ih =>
    intro l
    cases l with
    | nil =>
      constructor
      · intro h; exact absurd h (by simp [esPrefijoB])
      · rintro ⟨v, hv⟩; cases hv
    | cons c cs =>
      constructor
      · intro h
        obtain ⟨h1, h2⟩ := Bool.and_eq_true .. ▸ h
        obtain ⟨v, hv⟩ := (ih cs).mp h2
        exact ⟨v, by rw [List.cons_append, ← eq_of_beq h1, hv]⟩
      · rintro ⟨v, hv⟩
        rw [List.cons_append] at hv
        injection hv with h1 h2
        show (p == c && esPrefijoB ps cs) = true
        rw [h1, beq_self_eq_true]
        simpa using (ih cs).mpr ⟨v, h2⟩

theorem esSubcadenaB_iff (pat : List Char) : ∀ l, esSubcadenaB pat l = true ↔ ∃ u v, l = u ++ pat ++ v := by
  intro l
  induction l with
  | nil =>
    simp only [esSubcadenaB, List.isEmpty_iff]
    constructor
    · rintro rfl; exact ⟨[], [], rfl⟩
    · rintro ⟨u, v, h⟩
      rcases u with _ | _ <;> rcases pat with _ | _ <;> simp_all
  | cons c cs ih =>
    simp only [esSubcadenaB, Bool.or_eq_true, esPrefijoB_iff, ih]
    constructor
    · rintro (⟨v, hv⟩ | ⟨u, v, hv⟩)
      · exact ⟨[], v, by simpa using hv⟩
      · exact ⟨c :: u, v, by simp [hv]⟩
    · rintro ⟨u, v, h⟩
      cases u with
      | nil => exact Or.inl ⟨v, by simpa using h⟩
      | cons x xs =>
        rw [List.cons_append, List.cons_append] at h
        injection h with h1 h2
        exact Or.inr ⟨xs, v, by simpa using h2⟩

theorem pyStripL_infix (l : List Char) : ∃ u v, l = u ++ pyStripL l ++ v := by
  have key : ∀ D : List Char,
      D = (D.reverse.dropWhile isPySpace).reverse ++ (D.reverse.takeWhile isPySpace).reverse := by
    intro D
    calc D = D.reverse.reverse := (List.reverse_reverse D).symm
    _ = (D.reverse.takeWhile isPySpace ++ D.reverse.dropWhile isPySpace).reverse := by
        rw [List.takeWhile_append_dropWhile]
    _ = (D.reverse.dropWhile isPySpace).reverse ++ (D.reverse.takeWhile isPySpace).reverse := by
        rw [List.reverse_append]
  refine ⟨l.takeWhile isPySpace,
    ((l.dropWhile isPySpace).reverse.takeWhile isPySpace).reverse, ?_⟩
  conv_lhs => rw [← List.takeWhile_append_dropWhile isPySpace l]
  rw [List.append_assoc]
  congr 1
  exact key (l.dropWhile isPySpace)

theorem intercalate_go_foldl (sep : String) (xs : List String) (acc : String) :
    String.intercalate.go acc sep xs = List.foldl (fun a y => a ++ sep ++ y) acc xs := by
  induction xs generalizing acc with
  | nil => rfl
  | cons x xs ih => simpa [String.intercalate.go] using ih (acc ++ sep ++ x)

theorem pyJoin_eq_intercalate (sep : String) (xs : List String) :
    pyJoin sep xs = String.intercalate sep xs := by
  cases xs with
  | nil => rfl
  | cons x xs => simp [pyJoin, String.intercalate, intercalate_go_foldl]

theorem joinIf_eq (sep : String) (m : List String) :
    (if m.isEmpty then "" else pyJoin sep m) = String.intercalate sep m := by
  cases m with
  | nil => rfl
  | cons x xs => simp [pyJoin_eq_intercalate]

theorem pyJoin_length_ge (sep : String) (x : String) (xs : List String) :
    x.length ≤ (pyJoin sep (x :: xs)).length := by
  induction xs generalizing x with
  | nil => simp [pyJoin]
  | cons y ys ih =>
    have h := ih (x ++ sep ++ y)
    have hx : x.length ≤ (x ++ sep ++ y).length := by
      simp [String.length_append]
      omega
    calc x.length ≤ (x ++ sep ++ y).length := hx
    _ ≤ (pyJoin sep ((x ++ sep ++ y) :: ys)).length := h
    _ = (pyJoin sep (x :: y :: ys)).length := by simp [pyJoin]

theorem lookup_append {α : Type} (l₁ l₂ : List (String × α)) (c : String) :
    (l₁ ++ l₂).lookup c =
      match l₁.lookup c with
      | Option.some v => Option.some v
      | Option.none => l₂.lookup c := by
  induction l₁ with
  | nil => simp [List.lookup]
  | cons kv rest ih =>
    obtain ⟨k, v⟩ := kv
    by_cases h : c == k
    · simp [List.lookup, h]
    · simp only [List.cons_append, List.lookup]
      rw [Bool.eq_false_iff.mpr h]
      simpa using ih

theorem lookup_map_self {α : Type} (f : String → α) (l : List String) (c : String)
    (hc : c ∈ l) : (l.map (fun x => (x, f x))).lookup c = Option.some (f c) := by
  induction l with
  | nil => cases hc
  | cons x xs ih =>
    by_cases h : c = x
    · subst h; simp [List.lookup]
    · have hm : c ∈ xs := by
        rcases List.mem_cons.mp hc with h' | h'
        · exact absurd h' h
        · exact h'
      simp only [List.map_cons, List.lookup]
      rw [show (c == x) = false from beq_eq_false_iff_ne.mpr h]
      exact ih hm

/-! ## C1: idempotence of the record deserializer -/

/-- Claim C1 (corrected): the deserializer is idempotent on every input
whose deserialized form is a scalar (string, number, boolean or null):
re-deserializing such a result returns it unchanged.  The original claim
extended this to list and map results, which the counterexample below
refutes. -/
theorem deserializar_idempotente_en_escalares (x v : PyVal)
    (_hx : deserializar_valor_dynamodb x = Except.ok v)
    (hv : esEscalarB v = true) :
    deserializar_valor_dynamodb v = Except.ok v := by
  cases v with
  | str s => rfl
  | int n => rfl
  | float m e => rfl
  | bool b => rfl
  | none => rfl
  | list xs => simp [esEscalarB] at hv
  | dict kvs => simp [esEscalarB] at hv

/-- Witness for C1 at a concrete tagged input. -/
theorem deserializar_idempotente_en_escalares_witness :
    deserializar_valor_dynamodb (PyVal.dict [("S", PyVal.str "hola")]) =
      Except.ok (PyVal.str "hola") ∧
    esEscalarB (PyVal.str "hola") = true ∧
    deserializar_valor_dynamodb (PyVal.str "hola") = Except.ok (PyVal.str "hola") :=
  ⟨rfl, rfl, deserializar_idempotente_en_escalares
    (PyVal.dict [("S", PyVal.str "hola")]) (PyVal.str "hola") rfl rfl⟩

/-- Counterexample to C1 as stated: a tagged map deserializes to a plain
dict, and re-deserializing that dict string-coerces it instead of
returning it unchanged. -/
theorem deserializar_no_idempotente_en_mapas :
    deserializar_valor_dynamodb
        (PyVal.dict [("M", PyVal.dict [("a", PyVal.dict [("S", PyVal.str "x")])])]) =
      Except.ok (PyVal.dict [("a", PyVal.str "x")]) ∧
    deserializar_valor_dynamodb (PyVal.dict [("a", PyVal.str "x")]) =
      Except.ok (PyVal.str "\x7b\x27a\x27: \x27x\x27\x7d") ∧
    PyVal.str "\x7b\x27a\x27: \x27x\x27\x7d" ≠ PyVal.dict [("a", PyVal.str "x")] :=
  ⟨rfl, rfl, fun h => PyVal.noConfusion h⟩

/-! ## C2: the aggregation join -/

/-- Claim C2 (corrected): both variants of safe_join_non_empty join the
group values that are neither empty nor the literal nan or None strings,
and produce the empty string exactly when no value qualifies; the
etl-process1 variant uses the double-pipe separator while the variant in
src/lambda/lambda_function.py uses a single pipe. -/
theorem safe_join_caracterizacion (l : List String) :
    safe_join_non_empty l =
      String.intercalate " || " (l.filter (fun v => !esValorVacio v)) ∧
    safe_join_non_empty_v1 l =
      String.intercalate " | " (l.filter (fun v => !esValorVacio v)) ∧
    (safe_join_non_empty l = "" ↔ ∀ v ∈ l, v ∈ valoresVacios) := by
  refine ⟨joinIf_eq " || " _, joinIf_eq " | " _, ?_⟩
  have hval : ∀ v : String, esValorVacio v = true ↔ v ∈ valoresVacios := by
    intro v
    simp [esValorVacio, valoresVacios, or_assoc]
  constructor
  · intro hempty
    intro v hv
    by_contra hvq
    have hvb : esValorVacio v = false := by
      cases h : esValorVacio v
      · rfl
      · exact absurd ((hval v).mp h) hvq
    have hmem : v ∈ l.filter (fun x => !esValorVacio x) :=
      List.mem_filter.mpr ⟨hv, by simp [hvb]⟩
    cases hne : l.filter (fun x => !esValorVacio x) with
    | nil => rw [hne] at hmem; cases hmem
    | cons x xs =>
      have hxb : esValorVacio x = false := by
        have := (List.mem_filter.mp (hne ▸ List.mem_cons_self x xs)).2
        simpa using this
      have hxne : x ≠ "" := by
        intro h
        rw [h] at hxb
        simp [esValorVacio] at hxb
      have hx1 : 1 ≤ x.length := by
        cases hx : x.length with
        | zero => exact absurd (String.eq_empty_of_len_zero hx) hxne
        | succ n => omega
      have hlen : 1 ≤ (pyJoin " || " (x :: xs)).length := by
        have := pyJoin_length_ge " || " x xs
        omega
      have heq : safe_join_non_empty l = pyJoin " || " (x :: xs) := by
        unfold safe_join_non_empty
        rw [hne]
        rfl
      rw [heq] at hempty
      rw [hempty] at hlen
      simp at hlen
  · intro hall
    have hfe : l.filter (fun v => !esValorVacio v) = [] := by
      rw [List.filter_eq_nil_iff]
      intro a ha
      have := (hval a).mpr (hall a ha)
      simp [this]
    unfold safe_join_non_empty
    rw [hfe]
    rfl

/-- Counterexample to C2 as stated: the src/lambda variant of
safe_join_non_empty joins qualifying values with a single pipe, not the
double-pipe separator. -/
theorem safe_join_separador_simple :
    safe_join_non_empty_v1 ["a", "b"] = "a | b" ∧ "a | b" ≠ "a || b" :=
  ⟨rfl, by decide⟩

/-! ## C3: the fixed 12-column schema -/

/-- Claim C3 (confirmed): for every input frame, the validated output has
exactly the 12 documented columns in order, a column present in the input
keeps its values, and a missing column is synthesized as the empty string
for every row. -/
theorem validar_columnas_esquema (df : List (String × List String)) (n : Nat) :
    (validar_y_ordenar_columnas_finales n df).map Prod.fst = COLUMNAS_FINALES_12 ∧
    ∀ c ∈ COLUMNAS_FINALES_12,
      (validar_y_ordenar_columnas_finales n df).lookup c =
        Option.some ((df.lookup c).getD (List.replicate n "")) := by
  constructor
  · simp [validar_y_ordenar_columnas_finales, Function.comp_def]
  · intro c hc
    unfold validar_y_ordenar_columnas_finales
    rw [lookup_map_self _ _ _ hc]
    congr 1
    rw [lookup_append]
    cases hdf : df.lookup c with
    | some v => simp
    | none =>
      have hmem : c ∈ COLUMNAS_FINALES_12.filter (fun c => (df.lookup c).isNone) :=
        List.mem_filter.mpr ⟨hc, by simp [hdf]⟩
      rw [lookup_map_self (fun _ => List.replicate n "") _ _ hmem]
      simp

/-- Witness for C3 at a concrete frame missing most columns. -/
theorem validar_columnas_esquema_witness :
    "usuario_id" ∈ COLUMNAS_FINALES_12 ∧
    (validar_y_ordenar_columnas_finales 1 [("nombre", ["Ana"])]).lookup "usuario_id" =
      Option.some [""] :=
  ⟨by decide, (validar_columnas_esquema [("nombre", ["Ana"])] 1).2 "usuario_id" (by decide)⟩

/-! ## C9: integer cast of the type projection -/

/-- Claim C9 (confirmed): the integer cast maps the literal zero string to
null exactly like empty and null input, and any other nonempty string
goes through the permissive Spark cast (null on invalid). -/
theorem cast_entero_cero_como_nulo :
    castIntegerColumn (Option.some "0") = Option.none ∧
    castIntegerColumn (Option.some "") = Option.none ∧
    castIntegerColumn Option.none = Option.none ∧
    ∀ s : String, s ≠ "" → s ≠ "0" → castIntegerColumn (Option.some s) = sparkCastInt s := by
  refine ⟨rfl, rfl, rfl, ?_⟩
  intro s h1 h2
  show (if s = "" ∨ s = "0" then Option.none else sparkCastInt s) = sparkCastInt s
  rw [if_neg (fun h => h.elim h1 h2)]

/-- Witness for C9 at a concrete nonzero numeral. -/
theorem cast_entero_cero_como_nulo_witness :
    ("7" ≠ "" ∧ "7" ≠ "0") ∧
    castIntegerColumn (Option.some "7") = sparkCastInt "7" ∧
    sparkCastInt "7" = Option.some 7 :=
  ⟨⟨by decide, by decide⟩,
   cast_entero_cero_como_nulo.2.2.2 "7" (by decide) (by decide), rfl⟩

/-! ## C7: the permissive date filter -/

theorem strftime_ne_sin_fecha (d : Fecha) : strftimeDMY d ≠ "Sin fecha" := by
  intro h
  have hc : '/' ∈ (strftimeDMY d).data := by
    show '/' ∈ (((((pad2 d.dia).data ++ ['/']) ++ (pad2 d.mes).data) ++ ['/']) ++ (pad4 d.anio).data)
    simp
  rw [h] at hc
  exact absurd hc (by decide)

/-- Claim C7 (confirmed): a row whose raw timestamp fails to parse is
always kept with the Sin fecha sentinel, a parseable row is kept exactly
when its date lies in the inclusive window, and the kept sentinel rows
are in bijection with the unparseable input rows. -/
theorem filtro_fechas_permisivo (parse : String → Option Fecha) (hoy : Fecha)
    (rows : List FilaFecha) :
    (∀ r ∈ rows, parse r.fecha_primera_conversacion = Option.none →
        { r with fecha_primera_conversacion := "Sin fecha" } ∈
          aplicar_filtro_fechas parse hoy rows) ∧
    (∀ (r : FilaFecha) (d : Fecha), parse r.fecha_primera_conversacion = Option.some d →
        (filaFiltrada parse hoy r ≠ Option.none ↔
          (fechaLe fechaInicio d && fechaLe d hoy) = true)) ∧
    (aplicar_filtro_fechas parse hoy rows).countP
        (fun r => r.fecha_primera_conversacion == "Sin fecha") =
      rows.countP (fun r => (parse r.fecha_primera_conversacion).isNone) := by
  refine ⟨?_, ?_, ?_⟩
  · intro r hr hpar
    unfold aplicar_filtro_fechas
    exact List.mem_filterMap.mpr ⟨r, hr, by simp [filaFiltrada, hpar]⟩
  · intro r d hpar
    unfold filaFiltrada
    rw [hpar]
    by_cases hcond : (fechaLe fechaInicio d && fechaLe d hoy) = true
    · simp [hcond]
    · simp [hcond]
  · induction rows with
    | nil => rfl
    | cons r rest ih =>
      unfold aplicar_filtro_fechas at ih ⊢
      rw [List.filterMap_cons, List.countP_cons]
      cases hpar : parse r.fecha_primera_conversacion with
      | none =>
        have hsf : filaFiltrada parse hoy r =
            Option.some { r with fecha_primera_conversacion := "Sin fecha" } := by
          simp [filaFiltrada, hpar]
        rw [hsf, List.countP_cons]
        simp [hpar, ih]
      | some d =>
        by_cases hc : (fechaLe fechaInicio d && fechaLe d hoy) = true
        · have hff : filaFiltrada parse hoy r =
              Option.some { r with fecha_primera_conversacion := strftimeDMY d } := by
            simp [filaFiltrada, hpar, hc]
          rw [hff, List.countP_cons]
          have hne : (({ r with fecha_primera_conversacion := strftimeDMY d } :
              FilaFecha).fecha_primera_conversacion == "Sin fecha") = false :=
            beq_eq_false_iff_ne.mpr (strftime_ne_sin_fecha d)
          simp [hne, hpar, ih]
        · have hff : filaFiltrada parse hoy r = Option.none := by
            simp [filaFiltrada, hpar, hc]
          rw [hff]
          simp [hpar, ih]

/-- Witness for C7: an unparseable row survives and is labelled. -/
theorem filtro_fechas_permisivo_witness :
    ((fun _ : String => (Option.none : Option Fecha)) "x" = Option.none) ∧
    (⟨"u", "Sin fecha"⟩ : FilaFecha) ∈
      aplicar_filtro_fechas (fun _ => Option.none) ⟨2025, 10, 12⟩ [⟨"u", "x"⟩] :=
  ⟨rfl, (filtro_fechas_permisivo (fun _ => Option.none) ⟨2025, 10, 12⟩
      [⟨"u", "x"⟩]).1 ⟨"u", "x"⟩ (List.mem_singleton.mpr rfl) rfl⟩

/-! ## C8: totality and degradation of the dialogue reconstructor -/

/-- Claim C8 (corrected): the reconstructor is a total function; empty or
null input always yields the empty string; and a string input that is not
a sentinel and either does not look bracketed or defeats both structured
parsers is returned as its whitespace-stripped string coercion (the
original claim said the unstripped coercion, which the counterexample
refutes). -/
theorem formatear_total_y_degradacion :
    formatear_conversacion_especial PyVal.none = "" ∧
    formatear_conversacion_especial (PyVal.str "") = "" ∧
    ∀ s : String, pyStrip s ≠ "" →
      pyStrip s ≠ "nan" → pyStrip s ≠ "None" → pyStrip s ≠ "null" →
      (((startsC '[' (pyStrip s) && endsC ']' (pyStrip s)) = false ∧
        (startsC '\x7b' (pyStrip s) && endsC '\x7d' (pyStrip s)) = false) ∨
        (jsonLoads (pyStrip s) = Option.none ∧ literalEval (pyStrip s) = Option.none)) →
      formatear_conversacion_especial (PyVal.str s) = pyStrip s := by
  refine ⟨rfl, rfl, ?_⟩
  intro s h1 h2 h3 h4 h5
  have hs : s ≠ "" := fun h => h1 (by rw [h]; rfl)
  have htr : pyTruthy (PyVal.str s) = true := by simp [pyTruthy, hs]
  have key : ∀ (fuel : Nat) (coins : List Bool),
      (fcLog (fuel + 1) coins (PyVal.str s)).1 = pyStrip s := by
    intro fuel coins
    simp only [fcLog, htr, if_true]
    rw [if_neg (by
      rintro (h | h | h | h)
      exacts [h1 h, h2 h, h3 h, h4 h])]
    rcases h5 with ⟨ha, hb⟩ | ⟨hj, hl⟩
    · rw [ha, hb]
      simp
    · by_cases hbr1 : (startsC '[' (pyStrip s) && endsC ']' (pyStrip s)) = true
      · simp [hbr1, hj, hl]
      · by_cases hbr2 : (startsC '\x7b' (pyStrip s) && endsC '\x7d' (pyStrip s)) = true
        · simp [hbr1, hbr2, hj, hl]
        · simp [hbr1, hbr2]
  unfold formatear_conversacion_especial
  rw [show (1000 : Nat) = 999 + 1 from rfl]
  exact key 999 []

/-- Witness for C8 at a bracketed blob that both parsers reject. -/
theorem formatear_total_y_degradacion_witness :
    (pyStrip " [1,, 2] " ≠ "" ∧ pyStrip " [1,, 2] " ≠ "nan" ∧
     pyStrip " [1,, 2] " ≠ "None" ∧ pyStrip " [1,, 2] " ≠ "null" ∧
     jsonLoads (pyStrip " [1,, 2] ") = Option.none ∧
     literalEval (pyStrip " [1,, 2] ") = Option.none) ∧
    formatear_conversacion_especial (PyVal.str " [1,, 2] ") = pyStrip " [1,, 2] " :=
  ⟨⟨by decide, by decide, by decide, by decide, rfl, rfl⟩,
   formatear_total_y_degradacion.2.2 " [1,, 2] " (by decide) (by decide) (by decide)
     (by decide) (Or.inr ⟨rfl, rfl⟩)⟩

/-- Counterexample to C8 as stated: on total parse failure the function
returns the stripped coercion of the input, which is neither the string
coercion of the input nor the empty string. -/
theorem formatear_recorta_en_fallo :
    formatear_conversacion_especial (PyVal.str " [1,, 2] ") = "[1,, 2]" ∧
    "[1,, 2]" ≠ " [1,, 2] " ∧ "[1,, 2]" ≠ "" :=
  ⟨rfl, by decide, by decide⟩

/-! ## C10: determinism of the dialogue reconstructor -/

/-- Claim C10 (confirmed): the reconstructor's result depends only on its
argument; the random draw (the coin stream) only selects debug log lines,
so any two coin streams produce the same output string at every fuel, and
the pipeline entry point formatear_conversacion_especial computes that
common value. -/
theorem formatear_determinista :
    (∀ (fuel : Nat) (coins coins' : List Bool) (v : PyVal),
        (fcLog fuel coins v).1 = (fcLog fuel coins' v).1) ∧
    ∀ (coins : List Bool) (v : PyVal),
      (fcLog 1000 coins v).1 = formatear_conversacion_especial v := by
  have main : ∀ (fuel : Nat) (coins coins' : List Bool) (v : PyVal),
      (fcLog fuel coins v).1 = (fcLog fuel coins' v).1 := by
    intro fuel
    induction fuel with
    | zero => intro c c' v; rfl
    | succ f ih =>
      intro coins coins' v
      by_cases htr : pyTruthy v = true
      · have key : ∀ w, (fcLog f coins.tail w).1 = (fcLog f coins'.tail w).1 :=
          ih coins.tail coins'.tail
        simp only [fcLog, htr, if_true]
        cases v with
        | str s0 =>
          by_cases hsent : (pyStrip s0 = "" ∨ pyStrip s0 = "nan" ∨
              pyStrip s0 = "None" ∨ pyStrip s0 = "null")
          · simp [hsent]
          · simp only [if_neg hsent]
            by_cases hbr1 : (startsC '[' (pyStrip s0) && endsC ']' (pyStrip s0)) = true
            · simp only [if_pos hbr1]
              cases hj : jsonLoads (pyStrip s0) with
              | some pv => simp [key]
              | none =>
                cases hl : literalEval (pyStrip s0) with
                | some pv => simp [key]
                | none => simp
            · simp only [if_neg hbr1]
              by_cases hbr2 : (startsC '\x7b' (pyStrip s0) && endsC '\x7d' (pyStrip s0)) = true
              · simp only [if_pos hbr2]
                cases hj : jsonLoads (pyStrip s0) with
                | some pv => simp [key]
                | none =>
                  cases hl : literalEval (pyStrip s0) with
                  | some pv => simp [key]
                  | none => simp
              · simp only [if_neg hbr2]
        | list xs => cases hpe : procesarElementos xs <;> simp [hpe]
        | dict kvs => cases hL : kvs.lookup "L" <;> simp [hL, key]
        | int n => rfl
        | float m e => rfl
        | bool b => rfl
        | none => rfl
      · simp [fcLog, htr]
  exact ⟨main, fun coins v => main 1000 coins [] v⟩

/-! ## C4: the feedback classification rule -/

theorem matchTypeAt_corto (q : Char) (l : List Char) (h : l.length < 7) :
    matchTypeAt q l = Option.none := by
  rcases l with _ | ⟨a, _ | ⟨b, _ | ⟨c, _ | ⟨d, _ | ⟨e, _ | ⟨f, _ | ⟨g, rest⟩⟩⟩⟩⟩⟩⟩ <;>
    first
    | rfl
    | (simp at h; omega)

theorem findallTypeGo_corto (q : Char) :
    ∀ (l : List Char) (skip : Nat), l.length < 7 → findallTypeGo q l skip = [] := by
  intro l
  induction l with
  | nil => intro skip _; rfl
  | cons c rest ih =>
    intro skip h
    have hr : rest.length < 7 := by simp at h; omega
    cases skip with
    | succ k => exact ih k hr
    | zero =>
      have hm := matchTypeAt_corto q (c :: rest) h
      simp only [findallTypeGo, hm]
      exact ih 0 hr

theorem detectar_corto (t : String) (h7 : t.length < 7)
    (hb1 : startsC '[' t = false) (hb2 : startsC '\x7b' t = false) :
    detectarFeedback t = (false, false) := by
  have hdl : t.data.length < 7 := h7
  have e1 : findallType '\x27' t.data = [] := findallTypeGo_corto _ _ 0 hdl
  have e2 : findallType '"' t.data = [] := findallTypeGo_corto _ _ 0 hdl
  unfold detectarFeedback
  rw [e1, e2]
  simp [detectarFallback, hb1, hb2]

theorem startsC_mono (b : Char) (hb : pyLowerC b = b) (t : String)
    (h : startsC b t = true) : startsC b (pyLower t) = true := by
  unfold startsC at h ⊢
  cases hd : t.data with
  | nil => rw [hd] at h; cases h
  | cons c rest =>
    rw [hd] at h
    have hc : c = b := by simpa using h
    have hlow : (pyLower t).data = pyLowerC c :: pyLowerL rest := by
      show pyLowerL t.data = _
      rw [hd]; rfl
    rw [hlow]
    subst hc
    simp [hb]

theorem detectar_de_sentinela (t : String)
    (h : pyLower t = "nan" ∨ pyLower t = "none" ∨ pyLower t = "null") :
    detectarFeedback t = (false, false) := by
  have hlen : t.length < 7 := by
    rcases h with h | h | h <;> (rw [← pyLower_length t, h]; decide)
  have hb1 : startsC '[' t = false := by
    cases hs : startsC '[' t
    · rfl
    · have hmono := startsC_mono '[' (by decide) t hs
      rcases h with h | h | h <;> rw [h] at hmono <;> exact absurd hmono (by decide)
  have hb2 : startsC '\x7b' t = false := by
    cases hs : startsC '\x7b' t
    · rfl
    · have hmono := startsC_mono '\x7b' (by decide) t hs
      rcases h with h | h | h <;> rw [h] at hmono <;> exact absurd hmono (by decide)
  exact detectar_corto t hlen hb1 hb2

/-- Claim C4 (confirmed): the classifier returns mixed exactly when the
detection pass (regex over both quote styles, then the structured-parse
fallback) sees both a like and a dislike, like and dislike exactly when
only the respective tag is seen, and the empty string exactly when
neither is seen. -/
theorem clasificacion_regla_final (s : String) :
    (clasificar_feedback_simplificado s = "mixed" ↔
      detectarFeedback (pyStrip s) = (true, true)) ∧
    (clasificar_feedback_simplificado s = "like" ↔
      detectarFeedback (pyStrip s) = (true, false)) ∧
    (clasificar_feedback_simplificado s = "dislike" ↔
      detectarFeedback (pyStrip s) = (false, true)) ∧
    (clasificar_feedback_simplificado s = "" ↔
      detectarFeedback (pyStrip s) = (false, false)) := by
  by_cases hs : s = ""
  · subst hs
    refine ⟨?_, ?_, ?_, ?_⟩ <;> constructor <;> intro h <;> first | rfl | (exact absurd h (by decide))
  · have hcl : clasificar_feedback_simplificado s =
        (if pyStrip s = "" ∨ pyLower (pyStrip s) ∈ ["nan", "none", "null"] then ""
         else reglaFinal (detectarFeedback (pyStrip s)).1 (detectarFeedback (pyStrip s)).2) := by
      unfold clasificar_feedback_simplificado
      rw [if_neg hs]
    by_cases hearly : pyStrip s = "" ∨ pyLower (pyStrip s) ∈ ["nan", "none", "null"]
    · have hres : clasificar_feedback_simplificado s = "" := by rw [hcl, if_pos hearly]
      have hdet : detectarFeedback (pyStrip s) = (false, false) := by
        rcases hearly with he | hm
        · rw [he]; decide
        · exact detectar_de_sentinela (pyStrip s) (by simpa using hm)
      rw [hres, hdet]
      refine ⟨by decide, by decide, by decide, by decide⟩
    · rcases hd : detectarFeedback (pyStrip s) with ⟨l, d⟩
      have hres : clasificar_feedback_simplificado s = reglaFinal l d := by
        rw [hcl, if_neg hearly, hd]
      rw [hres]
      cases l <;> cases d <;> exact ⟨by decide, by decide, by decide, by decide⟩

/-! ## C5: the feedback counting formula -/

theorem esPrefijoB_false_of_long : ∀ (pat l : List Char), l.length < pat.length →
    esPrefijoB pat l = false := by
  intro pat
  induction pat with
  | nil => intro l h; simp at h
  | cons p ps ih =>
    intro l h
    cases l with
    | nil => rfl
    | cons c cs =>
      have hlt : cs.length < ps.length := by simp at h; omega
      show (p == c && esPrefijoB ps cs) = false
      rw [ih cs hlt]
      simp

theorem countSubGo_corto (pat : List Char) : ∀ (l : List Char) (skip : Nat),
    l.length < pat.length → countSubGo pat l skip = 0 := by
  intro l
  induction l with
  | nil => intro skip _; rfl
  | cons c rest ih =>
    intro skip h
    have hr : rest.length < pat.length := by simp at h; omega
    cases skip with
    | succ k => exact ih k hr
    | zero =>
      have hp : esPrefijoB pat (c :: rest) = false := esPrefijoB_false_of_long pat (c :: rest) h
      simp only [countSubGo, hp, Bool.false_eq_true, if_false]
      exact ih 0 hr

theorem countSubGo_pos (p : Char) (ps : List Char) :
    ∀ l : List Char, esSubcadenaB (p :: ps) l = true → 0 < countSubGo (p :: ps) l 0 := by
  intro l
  induction l with
  | nil => intro h; simp [esSubcadenaB] at h
  | cons c rest ih =>
    intro h
    simp only [esSubcadenaB, Bool.or_eq_true] at h
    cases hpre : esPrefijoB (p :: ps) (c :: rest) with
    | true =>
      simp only [countSubGo, hpre, if_true]
      omega
    | false =>
      have hsub : esSubcadenaB (p :: ps) rest = true := by
        rcases h with h | h
        · rw [hpre] at h; cases h
        · exact h
      simp only [countSubGo, hpre, Bool.false_eq_true, if_false]
      exact ih hsub

theorem contarMarcas_corto (t : String) (h : t.length < 14) : contarMarcas t = 0 := by
  have hlw : (pyLower t).data.length = t.data.length := by
    show (pyLowerL t.data).length = t.data.length
    simp [pyLowerL]
  have hdl : t.data.length < 14 := h
  have hz : ∀ pat : List Char, 14 ≤ pat.length → countSub pat (pyLower t).data = 0 := by
    intro pat hp
    have hne : ¬ (pat.isEmpty = true) := by
      cases pat
      · simp at hp
      · simp
    unfold countSub
    rw [if_neg hne]
    exact countSubGo_corto pat _ 0 (by omega)
  show countSub marcaLike1.data (pyLower t).data + countSub marcaLike2.data (pyLower t).data +
      countSub marcaDislike1.data (pyLower t).data + countSub marcaDislike2.data (pyLower t).data = 0
  rw [hz _ (by decide), hz _ (by decide), hz _ (by decide), hz _ (by decide)]

theorem sub_de_infijo (pat x : List Char) (hsub : esSubcadenaB pat x = true)
    (u v : List Char) : esSubcadenaB pat (u ++ x ++ v) = true := by
  obtain ⟨a, b, rfl⟩ := (esSubcadenaB_iff pat x).mp hsub
  apply (esSubcadenaB_iff pat _).mpr
  exact ⟨u ++ a, b ++ v, by simp⟩

theorem splitOnGo_part_infix (sep : List Char) :
    ∀ (l : List Char) (skip : Nat) (cur : List Char) (parte : List Char),
      (skip ≠ 0 → cur = []) → parte ∈ splitOnGo sep l skip cur →
      ∃ u v, cur.reverse ++ l = u ++ parte ++ v := by
  intro l
  induction l with
  | nil =>
    intro skip cur parte _ hm
    simp [splitOnGo] at hm
    subst hm
    exact ⟨[], [], by simp⟩
  | cons c rest ih =>
    intro skip cur parte hsc hm
    cases skip with
    | succ k =>
      have hcur : cur = [] := hsc (by omega)
      subst hcur
      obtain ⟨u, v, huv⟩ := ih k [] parte (fun _ => rfl) hm
      simp only [List.reverse_nil, List.nil_append] at huv
      exact ⟨c :: u, v, by simp [huv]⟩
    | zero =>
      by_cases hpre : esPrefijoB sep (c :: rest) = true
      · have heq : splitOnGo sep (c :: rest) 0 cur =
            cur.reverse :: splitOnGo sep rest (sep.length - 1) [] := by
          simp [splitOnGo, hpre]
        rw [heq] at hm
        rcases List.mem_cons.mp hm with rfl | hm'
        · exact ⟨[], c :: rest, by simp⟩
        · obtain ⟨u, v, huv⟩ := ih (sep.length - 1) [] parte (fun _ => rfl) hm'
          simp only [List.reverse_nil, List.nil_append] at huv
          exact ⟨cur.reverse ++ c :: u, v, by simp [huv]⟩
      · have heq : splitOnGo sep (c :: rest) 0 cur = splitOnGo sep rest 0 (c :: cur) := by
          simp [splitOnGo, hpre]
        rw [heq] at hm
        obtain ⟨u, v, huv⟩ := ih 0 (c :: cur) parte (fun h => absurd rfl h) hm
        refine ⟨u, v, ?_⟩
        simp only [List.reverse_cons] at huv
        calc cur.reverse ++ c :: rest = cur.reverse ++ [c] ++ rest := by simp
    _ = u ++ parte ++ v := huv

theorem pySplit_part_infix (sep : List Char) (hsep : ¬ (sep.isEmpty = true))
    (l parte : List Char) (hm : parte ∈ pySplitL sep l) : ∃ u v, l = u ++ parte ++ v := by
  unfold pySplitL at hm
  rw [if_neg hsep] at hm
  obtain ⟨u, v, huv⟩ := splitOnGo_part_infix sep l 0 [] parte (fun h => rfl) hm
  exact ⟨u, v, by simpa using huv⟩

theorem contarSegmentos_cero (partes : List (List Char))
    (h : ∀ parte ∈ partes,
      esSubcadenaB marcaLike1.data (pyLowerL (pyStripL parte)) = false ∧
      esSubcadenaB marcaLike2.data (pyLowerL (pyStripL parte)) = false ∧
      esSubcadenaB marcaDislike1.data (pyLowerL (pyStripL parte)) = false ∧
      esSubcadenaB marcaDislike2.data (pyLowerL (pyStripL parte)) = false) :
    contarSegmentos partes = 0 := by
  induction partes with
  | nil => rfl
  | cons parte rest ih =>
    obtain ⟨h1, h2, h3, h4⟩ := h parte (List.mem_cons_self parte rest)
    have hrest := ih (fun p hp => h p (List.mem_cons_of_mem _ hp))
    simp [contarSegmentos, h1, h2, h3, h4, hrest]

theorem marcas_cero_segmentos (t : String) (hz : contarMarcas t = 0) :
    contarSegmentos (pySplitL ['|'] t.data) = 0 := by
  have hz4 : countSub marcaLike1.data (pyLower t).data = 0 ∧
      countSub marcaLike2.data (pyLower t).data = 0 ∧
      countSub marcaDislike1.data (pyLower t).data = 0 ∧
      countSub marcaDislike2.data (pyLower t).data = 0 := by
    have hze : countSub marcaLike1.data (pyLower t).data +
        countSub marcaLike2.data (pyLower t).data +
        countSub marcaDislike1.data (pyLower t).data +
        countSub marcaDislike2.data (pyLower t).data = 0 := hz
    omega
  obtain ⟨z1, z2, z3, z4⟩ := hz4
  have nosub : ∀ m : List Char, ¬ (m.isEmpty = true) → countSub m (pyLower t).data = 0 →
      esSubcadenaB m (pyLower t).data = false := by
    intro m hm hcz
    cases hsubm : esSubcadenaB m (pyLower t).data with
    | false => rfl
    | true =>
      rcases m with _ | ⟨p, ps⟩
      · exact absurd rfl hm
      · have hpos := countSubGo_pos p ps _ hsubm
        unfold countSub at hcz
        rw [if_neg hm] at hcz
        omega
  apply contarSegmentos_cero
  intro parte hparte
  have hinf : ∃ u v, t.data = u ++ parte ++ v :=
    pySplit_part_infix ['|'] (by simp) t.data parte hparte
  have key : ∀ m : List Char, esSubcadenaB m (pyLower t).data = false →
      esSubcadenaB m (pyLowerL (pyStripL parte)) = false := by
    intro m hfalse
    cases hsubm : esSubcadenaB m (pyLowerL (pyStripL parte)) with
    | false => rfl
    | true =>
      exfalso
      obtain ⟨a, b, hab⟩ := pyStripL_infix parte
      have hmap : pyLowerL parte =
          pyLowerL a ++ pyLowerL (pyStripL parte) ++ pyLowerL b := by
        conv_lhs => rw [hab]
        simp [pyLowerL]
      have h1 : esSubcadenaB m (pyLowerL parte) = true := by
        rw [hmap]
        exact sub_de_infijo m _ hsubm (pyLowerL a) (pyLowerL b)
      obtain ⟨u, v, huv⟩ := hinf
      have hmap2 : (pyLower t).data = pyLowerL u ++ pyLowerL parte ++ pyLowerL v := by
        show pyLowerL t.data = _
        rw [huv]
        simp [pyLowerL]
      have h2 : esSubcadenaB m (pyLower t).data = true := by
        rw [hmap2]
        exact sub_de_infijo m _ h1 (pyLowerL u) (pyLowerL v)
      rw [hfalse] at h2
      cases h2
  exact ⟨key _ (nosub _ (by decide) z1), key _ (nosub _ (by decide) z2),
    key _ (nosub _ (by decide) z3), key _ (nosub _ (by decide) z4)⟩

/-- Claim C5 (confirmed): contar_feedback_total returns the number of
literal like and dislike markers (both quote styles) when any are found,
and otherwise returns one exactly when the stripped blob is longer than
the small threshold of ten characters, else zero.  The per-segment rescan
never contributes: a marker inside a stripped lowered segment would be a
marker in the lowered blob. -/
theorem contar_feedback_formula (s : String) :
    contar_feedback_total s =
      (if 0 < contarMarcas (pyStrip s) then contarMarcas (pyStrip s)
       else if 10 < (pyStrip s).length then 1 else 0) := by
  by_cases hs : s = ""
  · subst hs; decide
  · unfold contar_feedback_total
    rw [if_neg hs]
    unfold contarCuerpo
    by_cases hearly : pyStrip s = "" ∨ pyLower (pyStrip s) ∈ ["nan", "none", "null"]
    · rw [if_pos hearly]
      have h10 : (pyStrip s).length ≤ 10 := by
        rcases hearly with he | hsym
        · rw [he]; decide
        · have h4 : (pyStrip s).length ≤ 4 := by
            rcases (by simpa using hsym :
                pyLower (pyStrip s) = "nan" ∨ pyLower (pyStrip s) = "none" ∨
                  pyLower (pyStrip s) = "null") with h | h | h <;>
              (rw [← pyLower_length (pyStrip s), h]; decide)
          omega
      have hm : contarMarcas (pyStrip s) = 0 := contarMarcas_corto _ (by omega)
      have hn10 : ¬ (10 < (pyStrip s).length) := by omega
      simp [hm, hn10]
    · rw [if_neg hearly]
      by_cases hz : contarMarcas (pyStrip s) = 0
      · have hinner : (if esSubcadenaB ['|'] (pyStrip s).data = true ∧
              contarMarcas (pyStrip s) = 0 then
              contarMarcas (pyStrip s) + contarSegmentos (pySplitL ['|'] (pyStrip s).data)
            else contarMarcas (pyStrip s)) = 0 := by
          by_cases hp : esSubcadenaB ['|'] (pyStrip s).data = true
          · rw [if_pos ⟨hp, hz⟩, hz, marcas_cero_segmentos _ hz]
          · rw [if_neg (fun hc => hp hc.1), hz]
        unfold contarConMarcas
        rw [hinner]
        unfold contarFinal
        rw [hz]
        by_cases h10 : 10 < (pyStrip s).length <;> simp [h10]
      · have hpos : 0 < contarMarcas (pyStrip s) := Nat.pos_of_ne_zero hz
        have hinner : (if esSubcadenaB ['|'] (pyStrip s).data = true ∧
              contarMarcas (pyStrip s) = 0 then
              contarMarcas (pyStrip s) + contarSegmentos (pySplitL ['|'] (pyStrip s).data)
            else contarMarcas (pyStrip s)) = contarMarcas (pyStrip s) := by
          rw [if_neg (fun hc => hz hc.2)]
        unfold contarConMarcas
        rw [hinner]
        unfold contarFinal
        rw [if_neg (fun hc => hz hc.1), if_pos hpos]

/-! ## C6: deduplication and first-occurrence order -/

theorem dedupFirst_mem : ∀ (l : List String) (x : String),
    x ∈ dedupFirst l ↔ x ∈ l ∧ x ≠ "" := by
  intro l
  induction l using dedupFirst.induct with
  | case1 => intro x; simp [dedupFirst]
  | case2 rest ih =>
    intro x
    rw [show dedupFirst ("" :: rest) = dedupFirst rest from by rw [dedupFirst]; simp]
    rw [ih x]
    constructor
    · rintro ⟨h1, h2⟩; exact ⟨List.mem_cons_of_mem _ h1, h2⟩
    · rintro ⟨h1, h2⟩
      rcases List.mem_cons.mp h1 with rfl | h1
      · exact absurd rfl h2
      · exact ⟨h1, h2⟩
  | case3 p rest hp ih =>
    intro x
    rw [show dedupFirst (p :: rest) = p :: dedupFirst (rest.filter (fun q => decide (q ≠ p)))
      from by rw [dedupFirst]; simp [hp]]
    constructor
    · intro hx
      rcases List.mem_cons.mp hx with rfl | hx
      · exact ⟨List.mem_cons_self _ _, hp⟩
      · obtain ⟨h1, h2⟩ := (ih x).mp hx
        obtain ⟨h3, _⟩ := List.mem_filter.mp h1
        exact ⟨List.mem_cons_of_mem _ h3, h2⟩
    · rintro ⟨h1, h2⟩
      rcases List.mem_cons.mp h1 with rfl | h1
      · exact List.mem_cons_self _ _
      · by_cases hxp : x = p
        · subst hxp; exact List.mem_cons_self _ _
        · apply List.mem_cons_of_mem
          apply (ih x).mpr
          exact ⟨List.mem_filter.mpr ⟨h1, by simp [hxp]⟩, h2⟩

theorem dedupFirst_nodup : ∀ l : List String, (dedupFirst l).Nodup := by
  intro l
  induction l using dedupFirst.induct with
  | case1 => simp [dedupFirst]
  | case2 rest ih =>
    rw [show dedupFirst ("" :: rest) = dedupFirst rest from by rw [dedupFirst]; simp]
    exact ih
  | case3 p rest hp ih =>
    rw [show dedupFirst (p :: rest) = p :: dedupFirst (rest.filter (fun q => decide (q ≠ p)))
      from by rw [dedupFirst]; simp [hp]]
    refine List.nodup_cons.mpr ⟨?_, ih⟩
    intro hmem
    obtain ⟨h1, _⟩ := (dedupFirst_mem _ p).mp hmem
    obtain ⟨_, hne⟩ := List.mem_filter.mp h1
    simp at hne

theorem filter_indexOf_lt (p : String → Bool) :
    ∀ (l : List String) (a b : String), a ∈ l.filter p → b ∈ l.filter p →
      (l.filter p).indexOf a < (l.filter p).indexOf b →
      l.indexOf a < l.indexOf b := by
  intro l
  induction l with
  | nil => intro a b ha _ _; simp at ha
  | cons c rest ih =>
    intro a b ha hb hlt
    cases hpc : p c with
    | false =>
      have hfil : (c :: rest).filter p = rest.filter p := by simp [List.filter_cons, hpc]
      rw [hfil] at ha hb hlt
      have hane : a ≠ c := by
        rintro rfl
        have := (List.mem_filter.mp ha).2
        rw [hpc] at this; cases this
      have hbne : b ≠ c := by
        rintro rfl
        have := (List.mem_filter.mp hb).2
        rw [hpc] at this; cases this
      rw [List.indexOf_cons_ne _ (fun h => hane h.symm),
        List.indexOf_cons_ne _ (fun h => hbne h.symm)]
      have := ih a b ha hb hlt
      omega
    | true =>
      have hfil : (c :: rest).filter p = c :: rest.filter p := by simp [List.filter_cons, hpc]
      rw [hfil] at ha hb hlt
      by_cases hac : a = c
      · subst hac
        have hbne : b ≠ a := by
          rintro rfl
          rw [List.indexOf_cons_self] at hlt
          omega
        rw [List.indexOf_cons_self]
        rw [List.indexOf_cons_ne _ (fun h => hbne h.symm)]
        omega
      · have hbc : b ≠ c := by
          rintro rfl
          rw [List.indexOf_cons_self, List.indexOf_cons_ne _ (fun h => hac h.symm)] at hlt
          omega
        rw [List.indexOf_cons_ne _ (fun h => hac h.symm),
          List.indexOf_cons_ne _ (fun h => hbc h.symm)] at hlt
        rw [List.indexOf_cons_ne _ (fun h => hac h.symm),
          List.indexOf_cons_ne _ (fun h => hbc h.symm)]
        have hares : a ∈ rest.filter p := by
          rcases List.mem_cons.mp ha with rfl | h
          · exact absurd rfl hac
          · exact h
        have hbres : b ∈ rest.filter p := by
          rcases List.mem_cons.mp hb with rfl | h
          · exact absurd rfl hbc
          · exact h
        have := ih a b hares hbres (by omega)
        omega

theorem dedupFirst_pairwise : ∀ l : List String,
    (dedupFirst l).Pairwise (fun a b => l.indexOf a < l.indexOf b) := by
  intro l
  induction l using dedupFirst.induct with
  | case1 => simp [dedupFirst]
  | case2 rest ih =>
    rw [show dedupFirst ("" :: rest) = dedupFirst rest from by rw [dedupFirst]; simp]
    apply ih.imp_of_mem
    intro a b ha hb hlt
    have hane : a ≠ "" := ((dedupFirst_mem rest a).mp ha).2
    have hbne : b ≠ "" := ((dedupFirst_mem rest b).mp hb).2
    rw [List.indexOf_cons_ne _ (fun h => hane h.symm),
      List.indexOf_cons_ne _ (fun h => hbne h.symm)]
    omega
  | case3 p rest hp ih =>
    rw [show dedupFirst (p :: rest) = p :: dedupFirst (rest.filter (fun q => decide (q ≠ p)))
      from by rw [dedupFirst]; simp [hp]]
    apply List.pairwise_cons.mpr
    constructor
    · intro b hb
      have hbf : b ∈ rest.filter (fun q => decide (q ≠ p)) :=
        ((dedupFirst_mem _ b).mp hb).1
      have hbp : b ≠ p := by
        have := (List.mem_filter.mp hbf).2
        simpa using this
      rw [List.indexOf_cons_self, List.indexOf_cons_ne _ (fun h => hbp h.symm)]
      omega
    · apply ih.imp_of_mem
      intro a b ha hb hlt
      have haf : a ∈ rest.filter (fun q => decide (q ≠ p)) := ((dedupFirst_mem _ a).mp ha).1
      have hbf : b ∈ rest.filter (fun q => decide (q ≠ p)) := ((dedupFirst_mem _ b).mp hb).1
      have hap : a ≠ p := by have := (List.mem_filter.mp haf).2; simpa using this
      have hbp : b ≠ p := by have := (List.mem_filter.mp hbf).2; simpa using this
      have hrest := filter_indexOf_lt _ rest a b haf hbf hlt
      rw [List.indexOf_cons_ne _ (fun h => hap h.symm),
        List.indexOf_cons_ne _ (fun h => hbp h.symm)]
      omega

theorem filtro_fuera_append (acc : List String) (p : String) (rest : List String) :
    (rest.filter (fun x => decide (x ∉ acc))).filter (fun q => decide (q ≠ p)) =
      rest.filter (fun x => decide (x ∉ acc ++ [p])) := by
  rw [List.filter_filter]
  apply List.filter_congr
  intro x _
  simp only [List.mem_append, List.mem_singleton, not_or]
  rw [show ((decide ¬x = p) && decide (x ∉ acc)) = decide (¬x = p ∧ x ∉ acc) from by simp]
  rw [decide_eq_decide]
  tauto

theorem dedupGo_eq_dedupFirst : ∀ (l acc : List String),
    dedupGo acc l = acc ++ dedupFirst (l.filter (fun x => decide (x ∉ acc))) := by
  intro l
  induction l with
  | nil => intro acc; simp [dedupGo, dedupFirst]
  | cons p rest ih =>
    intro acc
    by_cases hp : p ≠ "" ∧ p ∉ acc
    · rw [show dedupGo acc (p :: rest) = dedupGo (acc ++ [p]) rest from by
        simp only [dedupGo, if_pos hp]]
      rw [ih (acc ++ [p])]
      have hfil : (p :: rest).filter (fun x => decide (x ∉ acc)) =
          p :: rest.filter (fun x => decide (x ∉ acc)) := by
        simp [List.filter_cons, hp.2]
      rw [hfil]
      rw [show dedupFirst (p :: rest.filter (fun x => decide (x ∉ acc))) =
          p :: dedupFirst ((rest.filter (fun x => decide (x ∉ acc))).filter
            (fun q => decide (q ≠ p))) from by
        rw [dedupFirst]; simp [hp.1]]
      rw [filtro_fuera_append]
      simp
    · rw [show dedupGo acc (p :: rest) = dedupGo acc rest from by
        simp only [dedupGo, if_neg hp]]
      rw [ih acc]
      congr 1
      by_cases hmem : p ∈ acc
      · have hfil : (p :: rest).filter (fun x => decide (x ∉ acc)) =
            rest.filter (fun x => decide (x ∉ acc)) := by
          simp [List.filter_cons, hmem]
        rw [hfil]
      · have hpe : p = "" := by
          by_contra hne
          exact hp ⟨hne, hmem⟩
        subst hpe
        have hfil : (("" : String) :: rest).filter (fun x => decide (x ∉ acc)) =
            ("" : String) :: rest.filter (fun x => decide (x ∉ acc)) := by
          simp [List.filter_cons, hmem]
        rw [hfil]
        rw [show dedupFirst (("" : String) :: rest.filter (fun x => decide (x ∉ acc))) =
            dedupFirst (rest.filter (fun x => decide (x ∉ acc))) from by
          rw [dedupFirst]; simp]

theorem dedupGo_nil_eq (l : List String) : dedupGo [] l = dedupFirst l := by
  rw [dedupGo_eq_dedupFirst l []]
  simp

/-- Claim C6 (confirmed): the user-utterance extraction returns the pipe
join of the deduplicated candidate list; that list never holds two equal
strings, holds exactly the non-empty candidates of the transcript, and
lists them in strictly increasing first-occurrence order of the raw
candidate stream. -/
theorem extraccion_sin_duplicados_en_orden (s : String) :
    extraer_preguntas_usuario s =
      (if (dedupGo [] (preguntas_usuario_crudas s)).isEmpty then ""
       else pyJoin " | " (dedupGo [] (preguntas_usuario_crudas s))) ∧
    (dedupGo [] (preguntas_usuario_crudas s)).Nodup ∧
    (∀ x, x ∈ dedupGo [] (preguntas_usuario_crudas s) ↔
      x ∈ preguntas_usuario_crudas s ∧ x ≠ "") ∧
    (dedupGo [] (preguntas_usuario_crudas s)).Pairwise (fun a b =>
      (preguntas_usuario_crudas s).indexOf a < (preguntas_usuario_crudas s).indexOf b) := by
  refine ⟨rfl, ?_, ?_, ?_⟩
  · rw [dedupGo_nil_eq]
    exact dedupFirst_nodup _
  · intro x
    rw [dedupGo_nil_eq]
    exact dedupFirst_mem _ x
  · rw [dedupGo_nil_eq]
    exact dedupFirst_pairwise _
